import Mathlib

/-!
Shallow embedding of the topic-subscription engine of `src/src/subs.c`
(marel-keytech/mosquitto).  Topic levels are byte strings, modelled as
`List Char`; hash tables keyed by level strings (uthash) are association
lists in insertion order; the intrusive doubly linked leaf lists are plain
Lean lists.  External collaborators (ACL check, message-id generator,
outgoing-queue insert, retained store) are oracles carried in an `Env`.
Return codes are the C `mosq_err_t` integers.
-/

namespace Subs

/-- Topic level: one `/`-separated segment, as a character list. -/
abbrev Lvl : Type := List Char

/-- mosq_err_t MOSQ_ERR_SUCCESS. -/
def MOSQ_ERR_SUCCESS : Int := 0
/-- mosq_err_t MOSQ_ERR_NOMEM (also the bare `return 1` generic error in subs.c). -/
def MOSQ_ERR_NOMEM : Int := 1
/-- mosq_err_t MOSQ_ERR_SUB_EXISTS. -/
def MOSQ_ERR_SUB_EXISTS : Int := -2
/-- mosq_err_t MOSQ_ERR_NO_SUBSCRIBERS. -/
def MOSQ_ERR_NO_SUBSCRIBERS : Int := -3
/-- mosq_err_t MOSQ_ERR_INVAL. -/
def MOSQ_ERR_INVAL : Int := 3
/-- mosq_err_t MOSQ_ERR_ACL_DENIED. -/
def MOSQ_ERR_ACL_DENIED : Int := 12
/-- MQTT v5 reason code MQTT_RC_NO_SUBSCRIPTION_EXISTED (0x11). -/
def MQTT_RC_NO_SUBSCRIPTION_EXISTED : Nat := 17

/-- enum mosq_protocol (mosq_p_mqtt31 / mosq_p_mqtt311 / mosq_p_mqtt5). -/
inductive Protocol : Type where
  | invalid : Protocol
  | mqtt31 : Protocol
  | mqtt311 : Protocol
  | mqtt5 : Protocol
deriving DecidableEq, Repr

/-- The part of `struct mosquitto` (a client context) the engine reads:
the pointer identity `cid`, the client id string `context->id`
(possibly NULL), and the protocol version. -/
structure Client where
  cid : Nat
  id : Option Lvl
  protocol : Protocol
deriving DecidableEq, Repr

/-- struct mosquitto__subleaf: the owning context's identity and id string
are inlined (`leaf->context->...`), plus the subscription identifier,
the options byte and the filter text. -/
structure Subleaf where
  clientCid : Nat
  clientId : Option Lvl
  identifier : Nat
  subscription_options : Nat
  topic_filter : List Char
deriving DecidableEq, Repr

/-- struct mosquitto_subscription: filter, identifier, options. -/
structure Subscription where
  topic_filter : List Char
  identifier : Nat
  options : Nat
deriving DecidableEq, Repr

/-- Modelled from the spec: the accessors of the subscription-options
bitfield (`MQTT_SUB_OPT_GET_*` of mqtt_protocol.h, which is not under
src/).  §3 of the spec: "`options`: a bitfield containing QoS (0/1/2),
no-local flag, retain-as-published flag"; the standard MQTT layout puts
QoS in bits 0-1, no-local in bit 2, retain-as-published in bit 3. -/
def MQTT_SUB_OPT_GET_QOS (o : Nat) : Nat := o % 4

/-- Modelled from the spec: no-local flag of the options bitfield (bit 2). -/
def MQTT_SUB_OPT_GET_NO_LOCAL (o : Nat) : Bool := o / 4 % 2 = 1

/-- Modelled from the spec: retain-as-published flag of the options
bitfield (bit 3). -/
def MQTT_SUB_OPT_GET_RETAIN_AS_PUBLISHED (o : Nat) : Bool := o / 8 % 2 = 1

/-- One call handed to the enqueue sink `db__message_insert_outgoing`
(client, mid, effective qos, outgoing retain flag, subscription id). -/
structure EnqueueCall where
  cid : Nat
  mid : Nat
  qos : Nat
  retain : Bool
  identifier : Nat
deriving DecidableEq, Repr

/-- External collaborators of one publish-match invocation, keyed by the
client identity: `acl cid` is the `mosquitto_acl_check` result,
`midGen cid` the `mosquitto__mid_generate` result, `insert cid` the
`db__message_insert_outgoing` result, `retainStore` the `retain__store`
result, and `upgrade_outgoing_qos` the configuration flag. -/
structure Env where
  acl : Nat → Int
  upgrade_outgoing_qos : Bool
  midGen : Nat → Nat
  insert : Nat → Int
  retainStore : Int

/-- The argument record `subs__send` builds for the enqueue sink:
effective qos (upgrade flag or min), mid (generated iff qos nonzero),
outgoing retain (retain-as-published), subscription identifier. -/
def subs__send_call (env : Env) (leaf : Subleaf) (q : Nat) (r : Bool) : EnqueueCall :=
  let client_qos := MQTT_SUB_OPT_GET_QOS leaf.subscription_options
  let msg_qos := if env.upgrade_outgoing_qos then client_qos
    else if q > client_qos then client_qos else q
  let mid := if msg_qos ≠ 0 then env.midGen leaf.clientCid else 0
  let client_retain := if MQTT_SUB_OPT_GET_RETAIN_AS_PUBLISHED leaf.subscription_options
    then r else false
  ⟨leaf.clientCid, mid, msg_qos, client_retain, leaf.identifier⟩

/-- subs.c `subs__send` (lines 63-103): ACL check, then option
resolution and the enqueue-sink call.  Returns the C return code and the
list of sink calls made (empty, or the single call). -/
def subs__send (env : Env) (leaf : Subleaf) (q : Nat) (r : Bool) :
    Int × List EnqueueCall :=
  let rc2 := env.acl leaf.clientCid
  if rc2 = MOSQ_ERR_ACL_DENIED then (MOSQ_ERR_SUCCESS, [])
  else if rc2 = MOSQ_ERR_SUCCESS then
    let call := subs__send_call env leaf q r
    if env.insert leaf.clientCid = 1 then (1, [call]) else (MOSQ_ERR_SUCCESS, [call])
  else (1, [])

/-- A shared-subscription group: struct mosquitto__subshared is the group
name with its ordered leaf list. -/
abbrev SharedGroup : Type := Lvl × List Subleaf

/-- subs.c `subs__shared_process` (lines 106-123): for each group, send
to the head leaf, then unconditionally rotate the head to the tail; the
return code is 1 if any send returned nonzero.  (An empty group never
occurs - §3 invariant 4 - and contributes nothing here.) -/
def subs__shared_process (env : Env) (groups : List SharedGroup) (q : Nat) (r : Bool) :
    Int × List EnqueueCall × List SharedGroup :=
  match groups with
  | [] => (MOSQ_ERR_SUCCESS, [], [])
  | (g, ls) :: restg =>
    let (rc2, tr, ls') :=
      match ls with
      | [] => (MOSQ_ERR_SUCCESS, ([] : List EnqueueCall), ([] : List Subleaf))
      | l :: tl =>
        let (rcx, trx) := subs__send env l q r
        (rcx, trx, tl ++ [l])
    let (rcr, trr, restg') := subs__shared_process env restg q r
    ((if rc2 ≠ 0 then 1 else rcr), tr ++ trr, (g, ls') :: restg')

/-- The skip condition of the normal-subscriber loop in `subs__process`
(line 135): skip when the leaf's client id is NULL, or when no-local is
set and the ids are equal. -/
def subsSkip (sid : Lvl) (l : Subleaf) : Bool :=
  match l.clientId with
  | none => true
  | some cid => MQTT_SUB_OPT_GET_NO_LOCAL l.subscription_options && cid = sid

/-- The normal-subscriber loop of `subs__process` (lines 133-144), run
only when the source id is non-NULL: each non-skipped leaf goes through
`subs__send`; the code is 1 if any send returned nonzero, else 0. -/
def subs__process_loop (env : Env) (sid : Lvl) (leaves : List Subleaf)
    (q : Nat) (r : Bool) : Int × List EnqueueCall :=
  match leaves with
  | [] => (MOSQ_ERR_SUCCESS, [])
  | l :: rest =>
    if subsSkip sid l then subs__process_loop env sid rest q r
    else
      let (rc2, tr) := subs__send env l q r
      let (rcr, trr) := subs__process_loop env sid rest q r
      ((if rc2 ≠ 0 then 1 else rcr), tr ++ trr)

/-- struct mosquitto__subhier: a trie node with its level string, the
uthash `children` map (association list in insertion order), the normal
leaf list `subs`, and the shared-group map `shared`. -/
inductive Subhier : Type where
  | mk (topic : Lvl) (children : List (Lvl × Subhier)) (subs : List Subleaf)
      (shared : List SharedGroup) : Subhier

/-- Level string of a node. -/
def Subhier.topic : Subhier → Lvl
  | .mk t _ _ _ => t

/-- Children map of a node. -/
def Subhier.children : Subhier → List (Lvl × Subhier)
  | .mk _ c _ _ => c

/-- Normal leaf list of a node. -/
def Subhier.subs : Subhier → List Subleaf
  | .mk _ _ s _ => s

/-- Shared-group map of a node. -/
def Subhier.shared : Subhier → List SharedGroup
  | .mk _ _ _ sh => sh

/-- Replace the children map of a node. -/
def Subhier.withChildren : Subhier → List (Lvl × Subhier) → Subhier
  | .mk t _ s sh, c => .mk t c s sh

/-- Replace the normal leaf list of a node. -/
def Subhier.withSubs : Subhier → List Subleaf → Subhier
  | .mk t c _ sh, s => .mk t c s sh

/-- Replace the shared-group map of a node. -/
def Subhier.withShared : Subhier → List SharedGroup → Subhier
  | .mk t c s _, sh => .mk t c s sh

/-- HASH_FIND on an association list: first entry with the given key. -/
def hashFind {α : Type} (m : List (Lvl × α)) (k : Lvl) : Option α :=
  match m with
  | [] => none
  | (k', v) :: rest => if k' = k then some v else hashFind rest k

/-- In-place update of the value stored under an existing key
(mutation of the object a HASH_FIND returned). -/
def hashReplace {α : Type} (m : List (Lvl × α)) (k : Lvl) (v : α) : List (Lvl × α) :=
  match m with
  | [] => []
  | (k', v') :: rest =>
    if k' = k then (k', v) :: rest else (k', v') :: hashReplace rest k v

/-- HASH_DELETE of the entry with the given key. -/
def hashDelete {α : Type} (m : List (Lvl × α)) (k : Lvl) : List (Lvl × α) :=
  match m with
  | [] => []
  | (k', v') :: rest => if k' = k then rest else (k', v') :: hashDelete rest k

/-- The root hash `db.subs`: root nodes keyed by the first level of the
tokenised filter or topic. -/
abbrev RootHash : Type := List (Lvl × Subhier)

/-- subs.c `subs__process` (lines 125-150): shared groups first, then the
normal-subscriber loop (only when the source id is non-NULL); returns
`MOSQ_ERR_NO_SUBSCRIBERS` when the node has neither normal leaves nor
shared groups, and otherwise 0/1 according to the send results. -/
def subs__process (env : Env) (node : Subhier) (source : Option Lvl)
    (q : Nat) (r : Bool) : Int × List EnqueueCall × Subhier :=
  let sp := subs__shared_process env node.shared q r
  let lp :=
    match source with
    | none => (MOSQ_ERR_SUCCESS, ([] : List EnqueueCall))
    | some sid => subs__process_loop env sid node.subs q r
  let rc : Int := if lp.1 ≠ 0 then 1 else sp.1
  let node' := node.withShared sp.2.2
  if node.subs.isEmpty && node.shared.isEmpty then
    (MOSQ_ERR_NO_SUBSCRIBERS, sp.2.1 ++ lp.2, node')
  else (rc, sp.2.1 ++ lp.2, node')

/-- The literal `"+"` child key. -/
def plusLvl : Lvl := ['+']

/-- The literal `"#"` child key. -/
def hashLvl : Lvl := ['#']

/-- One accumulation step of `sub__search`: merge a branch result into
the running (have_subscribers, trace, tree) state; a code other than
success / no-subscribers is an early `return rc`. -/
def searchFold (hs : Bool) (tr : List EnqueueCall)
    (res : Int × List EnqueueCall × Subhier) :
    Except (Int × List EnqueueCall × Subhier) (Bool × List EnqueueCall × Subhier) :=
  if res.1 = MOSQ_ERR_SUCCESS then Except.ok (true, tr ++ res.2.1, res.2.2)
  else if res.1 ≠ MOSQ_ERR_NO_SUBSCRIBERS then Except.error (res.1, tr ++ res.2.1, res.2.2)
  else Except.ok (hs, tr ++ res.2.1, res.2.2)

/-- Final `"#"` stage of `sub__search` (lines 508-527): process a
childless `"#"` child, then turn have_subscribers into the return code. -/
def sub__search_hash (env : Env) (st : Bool × List EnqueueCall × Subhier)
    (source : Option Lvl) (q : Nat) (r : Bool) : Int × List EnqueueCall × Subhier :=
  let fin :=
    match hashFind st.2.2.children hashLvl with
    | none => Except.ok st
    | some b =>
      if b.children.isEmpty then
        let pr := subs__process env b source q r
        searchFold st.1 st.2.1
          (pr.1, pr.2.1, st.2.2.withChildren (hashReplace st.2.2.children hashLvl pr.2.2))
      else Except.ok st
  match fin with
  | Except.error e => e
  | Except.ok st' =>
    if st'.1 then (MOSQ_ERR_SUCCESS, st'.2.1, st'.2.2)
    else (MOSQ_ERR_NO_SUBSCRIBERS, st'.2.1, st'.2.2)

/-- One branch block of `sub__search`: the literal block (lines 467-485)
and the `"+"` block (lines 487-505) are textually identical in the C up
to the looked-up key, so both are this definition.  Recurse into the
child under `k` (through `recur`, the suffix-search), then - when at the
end of the topic - also run `subs__process` on that (by then mutated)
child; either result can exit early through `searchFold`. -/
def sub__search_branch (env : Env) (st : Bool × List EnqueueCall × Subhier) (k : Lvl)
    (rest : List Lvl) (source : Option Lvl) (q : Nat) (r : Bool)
    (recur : Subhier → Int × List EnqueueCall × Subhier) :
    Except (Int × List EnqueueCall × Subhier) (Bool × List EnqueueCall × Subhier) :=
  match hashFind st.2.2.children k with
  | none => Except.ok st
  | some b =>
    let sr := recur b
    match searchFold st.1 st.2.1
        (sr.1, sr.2.1, st.2.2.withChildren (hashReplace st.2.2.children k sr.2.2)) with
    | Except.error e => Except.error e
    | Except.ok st1 =>
      if rest.isEmpty then
        let pr := subs__process env sr.2.2 source q r
        searchFold st1.1 st1.2.1
          (pr.1, pr.2.1, st1.2.2.withChildren (hashReplace st1.2.2.children k pr.2.2))
      else Except.ok st1

/-- subs.c `sub__search` (lines 459-528): recursive descent with the
literal branch, the `"+"` branch and the terminal `"#"` branch; a branch
returning neither success nor no-subscribers aborts the remaining
branches (`return rc`).  Returns the code, the sink-call trace, and the
node with the shared-group rotations applied. -/
def sub__search (env : Env) (node : Subhier) (split : List Lvl)
    (source : Option Lvl) (q : Nat) (r : Bool) : Int × List EnqueueCall × Subhier :=
  match split with
  | [] => sub__search_hash env (false, [], node) source q r
  | t :: rest =>
    match sub__search_branch env (false, [], node) t rest source q r
        (fun b => sub__search env b rest source q r) with
    | Except.error e => e
    | Except.ok st1 =>
      match sub__search_branch env st1 plusLvl rest source q r
          (fun b => sub__search env b rest source q r) with
      | Except.error e => e
      | Except.ok st2 => sub__search_hash env st2 source q r

/-- Split a character list on `/`, preserving empty segments;
the empty input yields the single empty level. -/
def splitLevels : List Char → List Lvl
  | [] => [[]]
  | c :: rest =>
    if c = '/' then [] :: splitLevels rest
    else
      match splitLevels rest with
      | [] => [[c]]
      | l :: ls => (c :: l) :: ls

/-- Split off the first level: the characters before the first `/`, and
the remainder after it (none when there is no `/`). -/
def splitFirst : List Char → List Char × Option (List Char)
  | [] => ([], none)
  | c :: rest =>
    if c = '/' then ([], some rest)
    else (c :: (splitFirst rest).1, (splitFirst rest).2)

/-- List prefix test by structural recursion. -/
def listStartsWith : List Char → List Char → Bool
  | [], _ => true
  | _ :: _, [] => false
  | c :: cs, d :: ds => c = d && listStartsWith cs ds

/-- The `$share/` marker. -/
def shareMark : List Char := ['$', 's', 'h', 'a', 'r', 'e', '/']

/-- A level is wildcard-well-formed when it is exactly `+`, exactly `#`,
or contains neither wildcard character. -/
def levelWildOk (l : Lvl) : Bool :=
  l = plusLvl || l = hashLvl || (!l.contains '+' && !l.contains '#')

/-- Wildcard placement over a level list: every level well-formed and
`#` only as the final level. -/
def levelsOk : List Lvl → Bool
  | [] => true
  | [l] => levelWildOk l
  | l :: rest => (levelWildOk l && l ≠ hashLvl) && levelsOk rest

/-- Modelled from the spec: the body of `sub__topic_tokenise` (the
tokenizer lives outside src/).  §4.1: split the filter on `/` preserving
empty segments, reject the empty input and bad wildcard placement.  The
trie layout of src (`sub__add` keys `db.subs` by the first token and
`sub__search` re-matches the first token among the root node's children,
with no `$` test anywhere) together with §3 ("the root's level is the
empty string") and the §4.5/§8 system-topic guard force the root level:
a filter or topic that does not begin with `$` is rooted at the empty
level, so its token list carries a leading empty token; `$`-rooted
topics live under their own first token. -/
def tokeniseFilterBody (s : List Char) : Option (List Lvl) :=
  if s.isEmpty then none
  else
    let levs := splitLevels s
    if levelsOk levs then
      some (if s.head? = some '$' then levs else [] :: levs)
    else none

/-- Modelled from the spec: `sub__topic_tokenise` for a subscription
filter (§4.1 `tokenize`): recognise an optional `$share/<group>/` prefix
with a non-empty, wildcard-free group, then tokenise the remainder as
`tokeniseFilterBody`; reject inputs longer than 65535 bytes. -/
def tokeniseSub (s : List Char) : Option (List Lvl × Option Lvl) :=
  if s.isEmpty || s.length > 65535 then none
  else if listStartsWith shareMark s then
    match (splitFirst (s.drop 7)).2 with
    | none => none
    | some remainder =>
      if (splitFirst (s.drop 7)).1.isEmpty || (splitFirst (s.drop 7)).1.contains '+' ||
          (splitFirst (s.drop 7)).1.contains '#' then none
      else
        match tokeniseFilterBody remainder with
        | some levs => some (levs, some (splitFirst (s.drop 7)).1)
        | none => none
  else
    match tokeniseFilterBody s with
    | some levs => some (levs, none)
    | none => none

/-- Modelled from the spec: `sub__topic_tokenise` for a publish topic
(§4.1 `tokenize_publish`): same split with the same root level, but
wildcards are forbidden entirely and no `$share/` prefix is parsed. -/
def tokenisePub (s : List Char) : Option (List Lvl) :=
  if s.isEmpty || s.length > 65535 then none
  else if s.contains '+' || s.contains '#' then none
  else
    let levs := splitLevels s
    some (if s.head? = some '$' then levs else [] :: levs)

/-- subs.c `sub__messages_queue` (lines 617-650): tokenise the topic
(failure is `return 1`), look the first level up in `db.subs`, run
`sub__search` there, then give the retained store its turn when the
retain flag is set.  The stored-message reference counting has no
observable effect here and is not modelled. -/
def sub__messages_queue (env : Env) (S : RootHash) (source : Option Lvl)
    (topic : List Char) (q : Nat) (r : Bool) : Int × List EnqueueCall × RootHash :=
  match tokenisePub topic with
  | none => (1, [], S)
  | some split =>
    match split with
    | [] => (1, [], S)
    | t0 :: _ =>
      let st :=
        match hashFind S t0 with
        | none => (MOSQ_ERR_SUCCESS, ([] : List EnqueueCall), S)
        | some rt =>
          let sr := sub__search env rt split source q r
          (sr.1, sr.2.1, hashReplace S t0 sr.2.2)
      let rcF := if r then (if env.retainStore ≠ 0 then env.retainStore else st.1) else st.1
      (rcF, st.2.1, st.2.2)

/-- The scan predicate of `sub__add_leaf` (line 161): the leaf belongs to
a context whose id is non-NULL and equal to the subscribing client's id. -/
def leafScanMatch (cid : Option Lvl) (l : Subleaf) : Bool :=
  match l.clientId, cid with
  | some a, some b => a = b
  | _, _ => false

/-- subs.c `sub__add_leaf` (lines 153-182): scan the leaf list for this
client; on a hit update identifier and options in place and return
`MOSQ_ERR_SUB_EXISTS`; otherwise append a fresh leaf.  Allocation never
fails in the model, so `MOSQ_ERR_NOMEM` is unreachable. -/
def sub__add_leaf (c : Client) (sb : Subscription) (leaves : List Subleaf) :
    Int × List Subleaf × Option Subleaf :=
  match leaves with
  | [] =>
    let lf : Subleaf := ⟨c.cid, c.id, sb.identifier, sb.options, sb.topic_filter⟩
    (MOSQ_ERR_SUCCESS, [lf], some lf)
  | l :: rest =>
    if leafScanMatch c.id l then
      (MOSQ_ERR_SUB_EXISTS,
       { l with identifier := sb.identifier, subscription_options := sb.options } :: rest,
       none)
    else
      let (rc, rest', nl) := sub__add_leaf c sb rest
      (rc, l :: rest', nl)

/-- The per-client index `context->subs`: store the new leaf reference in
the first empty slot, growing the array by one when full (lines 230-250
and 282-302). -/
def clientIndexAdd (cidx : List (Option Subleaf)) (lf : Subleaf) : List (Option Subleaf) :=
  match cidx with
  | [] => [some lf]
  | none :: rest => some lf :: rest
  | some x :: rest => some x :: clientIndexAdd rest lf

/-- subs.c `sub__add_normal` (lines 266-316): add or update the leaf in
the node's `subs`; a genuinely new leaf is also referenced from the
client index; the `MOSQ_ERR_SUB_EXISTS` code is surfaced only to
mqtt31/mqtt5 clients, mqtt311 gets `MOSQ_ERR_SUCCESS` so the session
layer re-sends retained messages. -/
def sub__add_normal (c : Client) (sb : Subscription) (node : Subhier)
    (cidx : List (Option Subleaf)) : Int × Subhier × List (Option Subleaf) :=
  let al := sub__add_leaf c sb node.subs
  if al.1 > 0 then (al.1, node, cidx)
  else
    let cidx' :=
      if al.1 ≠ MOSQ_ERR_SUB_EXISTS then
        match al.2.2 with
        | some lf => clientIndexAdd cidx lf
        | none => cidx
      else cidx
    let node' := node.withSubs al.2.1
    if c.protocol = Protocol.mqtt31 ∨ c.protocol = Protocol.mqtt5 then (al.1, node', cidx')
    else (MOSQ_ERR_SUCCESS, node', cidx')

/-- subs.c `sub__add_shared` (lines 195-263): find or create the group,
add or update the leaf in the group's list, reference a new leaf from
the client index, and apply the same protocol-version return-code rule
as `sub__add_normal`. -/
def sub__add_shared (c : Client) (sb : Subscription) (node : Subhier) (g : Lvl)
    (cidx : List (Option Subleaf)) : Int × Subhier × List (Option Subleaf) :=
  let sg :=
    match hashFind node.shared g with
    | some ls => (node.shared, ls)
    | none => (node.shared ++ [(g, [])], ([] : List Subleaf))
  let al := sub__add_leaf c sb sg.2
  if al.1 > 0 then (al.1, node, cidx)
  else
    let cidx' :=
      if al.1 ≠ MOSQ_ERR_SUB_EXISTS then
        match al.2.2 with
        | some lf => clientIndexAdd cidx lf
        | none => cidx
      else cidx
    let node' := node.withShared (hashReplace sg.1 g al.2.1)
    if c.protocol = Protocol.mqtt31 ∨ c.protocol = Protocol.mqtt5 then (al.1, node', cidx')
    else (MOSQ_ERR_SUCCESS, node', cidx')

/-- subs.c `sub__add_context` (lines 319-351): walk the token list from
the root node, creating missing children, then add the leaf at the
terminal node (shared or normal); contexts without an id add nothing. -/
def sub__add_context (c : Client) (sb : Subscription) (node : Subhier)
    (topics : List Lvl) (sharename : Option Lvl) (cidx : List (Option Subleaf)) :
    Int × Subhier × List (Option Subleaf) :=
  match topics with
  | [] =>
    if c.id.isSome then
      match sharename with
      | some g => sub__add_shared c sb node g cidx
      | none => sub__add_normal c sb node cidx
    else (MOSQ_ERR_SUCCESS, node, cidx)
  | t :: rest =>
    if t.length > 65535 then (MOSQ_ERR_INVAL, node, cidx)
    else
      match hashFind node.children t with
      | some b =>
        let rec1 := sub__add_context c sb b rest sharename cidx
        (rec1.1, node.withChildren (hashReplace node.children t rec1.2.1), rec1.2.2)
      | none =>
        let rec1 := sub__add_context c sb (Subhier.mk t [] [] []) rest sharename cidx
        (rec1.1, node.withChildren (node.children ++ [(t, rec1.2.1)]), rec1.2.2)

/-- subs.c `sub__add` (lines 552-590): tokenise the filter, find or
create the root node keyed by the first token, then `sub__add_context`
over the full token list. -/
def sub__add (c : Client) (sb : Subscription) (S : RootHash)
    (cidx : List (Option Subleaf)) : Int × RootHash × List (Option Subleaf) :=
  match tokeniseSub sb.topic_filter with
  | none => (MOSQ_ERR_INVAL, S, cidx)
  | some (toks, sharename) =>
    match toks with
    | [] => (MOSQ_ERR_INVAL, S, cidx)
    | t0 :: _ =>
      if t0.length > 65535 then (MOSQ_ERR_INVAL, S, cidx)
      else
        let sr :=
          match hashFind S t0 with
          | some h => (S, h)
          | none => (S ++ [(t0, Subhier.mk t0 [] [] [])], Subhier.mk t0 [] [] [])
        let rec1 := sub__add_context c sb sr.2 toks sharename cidx
        (rec1.1, hashReplace sr.1 t0 rec1.2.1, rec1.2.2)

/-- Remove the first leaf belonging to the given context (pointer
comparison `leaf->context == context`); returns the shortened list and
the removed leaf. -/
def removeLeafScan (cid : Nat) : List Subleaf → Option (List Subleaf × Subleaf)
  | [] => none
  | l :: rest =>
    if l.clientCid = cid then some (rest, l)
    else
      match removeLeafScan cid rest with
      | none => none
      | some (rest', x) => some (l :: rest', x)

/-- Clear the client-index slot that references the removed leaf
(`mosquitto__FREE(context->subs[i])` NULLs the slot). -/
def clientIndexClear (cidx : List (Option Subleaf)) (lf : Subleaf) : List (Option Subleaf) :=
  match cidx with
  | [] => []
  | none :: rest => none :: clientIndexClear rest lf
  | some x :: rest =>
    if x = lf then none :: rest else some x :: clientIndexClear rest lf

/-- subs.c `sub__remove_normal` (lines 354-387): unlink this context's
leaf from the node's `subs`, clear its client-index slot and set the
reason to 0; `MOSQ_ERR_NO_SUBSCRIBERS` when no leaf belongs to it. -/
def sub__remove_normal (c : Client) (node : Subhier) (reason : Nat)
    (cidx : List (Option Subleaf)) : Int × Subhier × Nat × List (Option Subleaf) :=
  match removeLeafScan c.cid node.subs with
  | none => (MOSQ_ERR_NO_SUBSCRIBERS, node, reason, cidx)
  | some (subs', lf) => (MOSQ_ERR_SUCCESS, node.withSubs subs', 0, clientIndexClear cidx lf)

/-- subs.c `sub__remove_shared` (lines 390-432): same removal inside the
named shared group, deleting the group when it empties. -/
def sub__remove_shared (c : Client) (node : Subhier) (reason : Nat)
    (g : Lvl) (cidx : List (Option Subleaf)) : Int × Subhier × Nat × List (Option Subleaf) :=
  match hashFind node.shared g with
  | none => (MOSQ_ERR_NO_SUBSCRIBERS, node, reason, cidx)
  | some gls =>
    match removeLeafScan c.cid gls with
    | none => (MOSQ_ERR_NO_SUBSCRIBERS, node, reason, cidx)
    | some (gls', lf) =>
      let shared' := if gls'.isEmpty then hashDelete node.shared g
        else hashReplace node.shared g gls'
      (MOSQ_ERR_SUCCESS, node.withShared shared', 0, clientIndexClear cidx lf)

/-- subs.c `sub__remove_recurse` (lines 435-456): walk the token list,
remove at the terminal node, collapse a now-empty branch on the way back
up; the recursive result is discarded, and the topics-non-empty path
always returns `MOSQ_ERR_SUCCESS`. -/
def sub__remove_recurse (c : Client) (node : Subhier) (topics : List Lvl)
    (reason : Nat) (cidx : List (Option Subleaf)) (sharename : Option Lvl) :
    Int × Subhier × Nat × List (Option Subleaf) :=
  match topics with
  | [] =>
    match sharename with
    | some g => sub__remove_shared c node reason g cidx
    | none => sub__remove_normal c node reason cidx
  | t :: rest =>
    match hashFind node.children t with
    | none => (MOSQ_ERR_SUCCESS, node, reason, cidx)
    | some branch =>
      let rr := sub__remove_recurse c branch rest reason cidx sharename
      let children' :=
        if rr.2.1.children.isEmpty && rr.2.1.subs.isEmpty && rr.2.1.shared.isEmpty then
          hashDelete node.children t
        else hashReplace node.children t rr.2.1
      (MOSQ_ERR_SUCCESS, node.withChildren children', rr.2.2.1, rr.2.2.2)

/-- subs.c `sub__remove` (lines 592-615): tokenise, and only when the
root node for the first token exists preset the reason to
`MQTT_RC_NO_SUBSCRIPTION_EXISTED` and recurse; the caller's reason value
survives untouched when the root node is absent, and the return code is
the recursion's (always 0 there). -/
def sub__remove (c : Client) (sb : List Char) (reason : Nat) (S : RootHash)
    (cidx : List (Option Subleaf)) : Int × RootHash × Nat × List (Option Subleaf) :=
  match tokeniseSub sb with
  | none => (MOSQ_ERR_INVAL, S, reason, cidx)
  | some (toks, sharename) =>
    match toks with
    | [] => (MOSQ_ERR_SUCCESS, S, reason, cidx)
    | t0 :: _ =>
      match hashFind S t0 with
      | none => (MOSQ_ERR_SUCCESS, S, reason, cidx)
      | some root =>
        let rr := sub__remove_recurse c root toks MQTT_RC_NO_SUBSCRIPTION_EXISTED cidx sharename
        (rr.1, hashReplace S t0 rr.2.1, rr.2.2.1, rr.2.2.2)

/-- Descend from a node along a token list through the children maps. -/
def descend : Subhier → List Lvl → Option Subhier
  | n, [] => some n
  | n, t :: rest =>
    match hashFind n.children t with
    | none => none
    | some b => descend b rest

/-- The node a token list denotes: the root-hash entry of the first
token, then a full descent (the first token is repeated as a child of
the root node, as `sub__add_context` builds it). -/
def nodeAtPath (S : RootHash) (toks : List Lvl) : Option Subhier :=
  match toks with
  | [] => none
  | t0 :: _ =>
    match hashFind S t0 with
    | none => none
    | some rt => descend rt toks

/-- Normal leaf list of the node a path denotes, relative to a node. -/
def subsAt (n : Subhier) (p : List Lvl) : Option (List Subleaf) :=
  (descend n p).map Subhier.subs

/-- Shared-group map of the node a path denotes, relative to a node. -/
def sharedAt (n : Subhier) (p : List Lvl) : Option (List SharedGroup) :=
  (descend n p).map Subhier.shared

/-- Normal leaf list of the node a path denotes, from the root hash. -/
def subsAtPath (S : RootHash) (p : List Lvl) : Option (List Subleaf) :=
  (nodeAtPath S p).map Subhier.subs

/-- Shared-group map of the node a path denotes, from the root hash. -/
def sharedAtPath (S : RootHash) (p : List Lvl) : Option (List SharedGroup) :=
  (nodeAtPath S p).map Subhier.shared

/-- Head rotation of a shared group's leaf list. -/
def rotateGroup : List Subleaf → List Subleaf
  | [] => []
  | l :: tl => tl ++ [l]

/-- The sink calls a shared group contributes: those of its head leaf. -/
def groupHeadCalls (env : Env) (q : Nat) (r : Bool) : SharedGroup → List EnqueueCall
  | (_, []) => []
  | (_, l :: _) => (subs__send env l q r).2

/-- An environment in which every collaborator call succeeds. -/
def envAllOk : Env := ⟨fun _ => 0, false, fun _ => 7, fun _ => 0, 0⟩

/-- An environment whose enqueue sink fails for client 1 and succeeds
for every other client. -/
def envOneFail : Env :=
  ⟨fun _ => 0, false, fun _ => 7, fun cid => if cid = 1 then 1 else 0, 0⟩

/-- An environment whose ACL check denies every client. -/
def envDenyAll : Env :=
  ⟨fun _ => MOSQ_ERR_ACL_DENIED, false, fun _ => 7, fun _ => 0, 0⟩

/-- Whether the node reached from `node` along `toks` holds a normal
leaf owned by client `c` (what `sub__remove_recurse` with no share name
ends up removing). -/
def hasNormalLeafAt (c : Client) (node : Subhier) (toks : List Lvl) : Bool :=
  match descend node toks with
  | none => false
  | some term => term.subs.any (fun l => l.clientCid = c.cid)

/-- Whether the node reached from `node` along `toks` holds, inside its
shared group named `g`, a leaf owned by client `c` (what
`sub__remove_recurse` with that share name ends up removing). -/
def hasSharedLeafAt (c : Client) (g : Lvl) (node : Subhier) (toks : List Lvl) : Bool :=
  match descend node toks with
  | none => false
  | some term =>
    match hashFind term.shared g with
    | none => false
    | some gls => gls.any (fun l => l.clientCid = c.cid)

/-- A node has subscribers present when its normal leaf list or its
shared map is non-empty - the test of subs.c lines 145-149, regardless
of whether any leaf is deliverable. -/
def nodeHasSubscribers (n : Subhier) : Bool :=
  !(n.subs.isEmpty && n.shared.isEmpty)

/-- Whether the `"#"` stage of `sub__search` (lines 508-521) finds a
node with subscribers: a childless `"#"` child that has some. -/
def hashStageHas (n : Subhier) : Bool :=
  match hashFind n.children hashLvl with
  | none => false
  | some b => b.children.isEmpty && nodeHasSubscribers b

/-- Whether the node enumeration of a whole `sub__search` invocation
reaches a node with subscribers present: the literal branch, the `"+"`
branch (each recursively, plus their end-of-topic terminal node) or the
childless `"#"` child. -/
def searchHasSubscribers : Subhier → List Lvl → Bool
  | n, [] => hashStageHas n
  | n, t :: rest =>
    (match hashFind n.children t with
     | none => false
     | some b => searchHasSubscribers b rest || (rest.isEmpty && nodeHasSubscribers b)) ||
    ((match hashFind n.children plusLvl with
      | none => false
      | some b => searchHasSubscribers b rest || (rest.isEmpty && nodeHasSubscribers b)) ||
     hashStageHas n)

/-- The contribution of one `sub__search_branch` block to
`searchHasSubscribers`: the child under `k`, searched recursively, plus
its own subscribers when the topic ends here. -/
def branchHas (n : Subhier) (k : Lvl) (rest : List Lvl) : Bool :=
  match hashFind n.children k with
  | none => false
  | some b => searchHasSubscribers b rest || (rest.isEmpty && nodeHasSubscribers b)

/-! Helper lemmas about `subs__send` and the loops. -/

theorem subs__send_call_qos (env : Env) (l : Subleaf) (q : Nat) (r : Bool) :
    (subs__send_call env l q r).qos =
      if env.upgrade_outgoing_qos then MQTT_SUB_OPT_GET_QOS l.subscription_options
      else if q > MQTT_SUB_OPT_GET_QOS l.subscription_options
        then MQTT_SUB_OPT_GET_QOS l.subscription_options else q := rfl

theorem subs__send_call_mid (env : Env) (l : Subleaf) (q : Nat) (r : Bool) :
    (subs__send_call env l q r).mid =
      if (subs__send_call env l q r).qos ≠ 0 then env.midGen l.clientCid else 0 := rfl

theorem subs__send_call_retain (env : Env) (l : Subleaf) (q : Nat) (r : Bool) :
    (subs__send_call env l q r).retain =
      if MQTT_SUB_OPT_GET_RETAIN_AS_PUBLISHED l.subscription_options then r else false := rfl

theorem subs__send_call_cid (env : Env) (l : Subleaf) (q : Nat) (r : Bool) :
    (subs__send_call env l q r).cid = l.clientCid := rfl

theorem subs__send_trace (env : Env) (l : Subleaf) (q : Nat) (r : Bool) :
    (subs__send env l q r).2 =
      if env.acl l.clientCid = MOSQ_ERR_SUCCESS then [subs__send_call env l q r] else [] := by
  unfold subs__send
  by_cases h1 : env.acl l.clientCid = MOSQ_ERR_ACL_DENIED
  · simp [h1, MOSQ_ERR_ACL_DENIED, MOSQ_ERR_SUCCESS]
  · by_cases h2 : env.acl l.clientCid = MOSQ_ERR_SUCCESS
    · by_cases h3 : env.insert l.clientCid = 1 <;>
        simp [h1, h2, h3, MOSQ_ERR_ACL_DENIED, MOSQ_ERR_SUCCESS]
    · simp [h1, h2]

theorem subs__send_rc (env : Env) (l : Subleaf) (q : Nat) (r : Bool) :
    (subs__send env l q r).1 = 0 ∨ (subs__send env l q r).1 = 1 := by
  unfold subs__send
  by_cases h1 : env.acl l.clientCid = MOSQ_ERR_ACL_DENIED
  · simp [h1, MOSQ_ERR_ACL_DENIED, MOSQ_ERR_SUCCESS]
  · by_cases h2 : env.acl l.clientCid = MOSQ_ERR_SUCCESS
    · by_cases h3 : env.insert l.clientCid = 1 <;>
        simp [h1, h2, h3, MOSQ_ERR_ACL_DENIED, MOSQ_ERR_SUCCESS]
    · simp [h1, h2]

theorem subs__process_loop_trace (env : Env) (sid : Lvl) (leaves : List Subleaf)
    (q : Nat) (r : Bool) :
    (subs__process_loop env sid leaves q r).2 =
      ((leaves.filter (fun l => !subsSkip sid l)).map
        (fun l => (subs__send env l q r).2)).flatten := by
  induction leaves with
  | nil => rfl
  | cons l rest ih =>
    by_cases h : subsSkip sid l
    · simp [subs__process_loop, h, ih]
    · simp [subs__process_loop, h, ih]

theorem subs__process_loop_rc (env : Env) (sid : Lvl) (leaves : List Subleaf)
    (q : Nat) (r : Bool) :
    (subs__process_loop env sid leaves q r).1 =
      if (leaves.filter (fun l => !subsSkip sid l)).any
          (fun l => (subs__send env l q r).1 ≠ 0) then 1 else 0 := by
  induction leaves with
  | nil => rfl
  | cons l rest ih =>
    by_cases h : subsSkip sid l
    · simpa [subs__process_loop, h] using ih
    · by_cases h2 : (subs__send env l q r).1 = 0
      · simp [subs__process_loop, h, h2, ih, MOSQ_ERR_SUCCESS]
      · simp [subs__process_loop, h, h2]

theorem subs__shared_process_groups (env : Env) (groups : List SharedGroup)
    (q : Nat) (r : Bool) :
    (subs__shared_process env groups q r).2.2 =
      groups.map (fun p => (p.1, rotateGroup p.2)) := by
  induction groups with
  | nil => rfl
  | cons g rest ih =>
    obtain ⟨name, ls⟩ := g
    cases ls <;> simp [subs__shared_process, rotateGroup, ih]

theorem subs__shared_process_trace (env : Env) (groups : List SharedGroup)
    (q : Nat) (r : Bool) :
    (subs__shared_process env groups q r).2.1 =
      (groups.map (groupHeadCalls env q r)).flatten := by
  induction groups with
  | nil => rfl
  | cons g rest ih =>
    obtain ⟨name, ls⟩ := g
    cases ls <;> simp [subs__shared_process, groupHeadCalls, ih]

/-- C1: each shared group hands the publish to at most one member - the
head of its ordered leaf list, and exactly that one when the ACL allows
it - and the head is rotated to the tail after every delivery attempt,
including ACL-denied ones (the skip consumes the turn), so two
consecutive publishes to a two-member group reach the two members in
order. -/
theorem c1_shared_group_rotation :
    (∀ (env : Env) (groups : List SharedGroup) (q : Nat) (r : Bool),
      (subs__shared_process env groups q r).2.2 =
        groups.map (fun p => (p.1, rotateGroup p.2)) ∧
      (subs__shared_process env groups q r).2.1 =
        (groups.map (groupHeadCalls env q r)).flatten) ∧
    (∀ (env : Env) (l : Subleaf) (q : Nat) (r : Bool),
      (subs__send env l q r).2 = [] ∨
        ((subs__send env l q r).2 = [subs__send_call env l q r] ∧
          (subs__send_call env l q r).cid = l.clientCid)) ∧
    (let m1 : Subleaf := ⟨1, some ['m', '1'], 0, 0, []⟩
     let m2 : Subleaf := ⟨2, some ['m', '2'], 0, 0, []⟩
     let p1 := subs__shared_process envAllOk [(['g'], [m1, m2])] 0 false
     let p2 := subs__shared_process envAllOk p1.2.2 0 false
     (p1.2.1.map EnqueueCall.cid = [1] ∧ p1.2.2 = [(['g'], [m2, m1])]) ∧
       p2.2.1.map EnqueueCall.cid = [2]) ∧
    (let envDeny : Env :=
       ⟨fun cid => if cid = 1 then MOSQ_ERR_ACL_DENIED else 0, false,
        fun _ => 7, fun _ => 0, 0⟩
     let m1 : Subleaf := ⟨1, some ['m', '1'], 0, 0, []⟩
     let m2 : Subleaf := ⟨2, some ['m', '2'], 0, 0, []⟩
     let p1 := subs__shared_process envDeny [(['g'], [m1, m2])] 0 false
     let p2 := subs__shared_process envDeny p1.2.2 0 false
     p1.2.1 = [] ∧ p1.2.2 = [(['g'], [m2, m1])] ∧
       p2.2.1.map EnqueueCall.cid = [2]) := by
  refine ⟨fun env groups q r => ⟨subs__shared_process_groups env groups q r,
    subs__shared_process_trace env groups q r⟩, ?_, by decide, by decide⟩
  intro env l q r
  rw [subs__send_trace]
  by_cases h : env.acl l.clientCid = MOSQ_ERR_SUCCESS
  · exact Or.inr ⟨by simp [h], subs__send_call_cid env l q r⟩
  · exact Or.inl (by simp [h])

/-- C4: every delivery that reaches the enqueue sink carries an
effective QoS equal to min(publish, subscriber) - or the subscriber's
QoS when `upgrade_outgoing_qos` is set - a packet identifier that is the
freshly generated non-zero mid exactly when the effective QoS is
positive and 0 otherwise, and an outgoing retain flag equal to the
publish retain flag when retain-as-published is set and false
otherwise. -/
theorem c4_enqueue_sink_arguments (env : Env) (leaf : Subleaf) (q : Nat) (r : Bool)
    (hmid : env.midGen leaf.clientCid ≠ 0) :
    ∀ call ∈ (subs__send env leaf q r).2,
      call.qos = (if env.upgrade_outgoing_qos
          then MQTT_SUB_OPT_GET_QOS leaf.subscription_options
          else min q (MQTT_SUB_OPT_GET_QOS leaf.subscription_options)) ∧
      (call.mid ≠ 0 ↔ 0 < call.qos) ∧
      call.mid = (if 0 < call.qos then env.midGen leaf.clientCid else 0) ∧
      call.retain = (if MQTT_SUB_OPT_GET_RETAIN_AS_PUBLISHED leaf.subscription_options
          then r else false) := by
  intro call hcall
  rw [subs__send_trace] at hcall
  by_cases hacl : env.acl leaf.clientCid = MOSQ_ERR_SUCCESS
  · simp only [hacl, if_true, List.mem_singleton] at hcall
    subst hcall
    refine ⟨?_, ?_, ?_, subs__send_call_retain env leaf q r⟩
    · rw [subs__send_call_qos]
      by_cases hup : env.upgrade_outgoing_qos
      · simp [hup]
      · simp only [hup, if_false]
        rw [Nat.min_def]
        split_ifs <;> omega
    · rw [subs__send_call_mid]
      generalize (subs__send_call env leaf q r).qos = m
      by_cases hz : m = 0 <;> simp [hz, hmid, Nat.pos_iff_ne_zero]
    · rw [subs__send_call_mid]
      generalize (subs__send_call env leaf q r).qos = m
      by_cases hz : m = 0 <;> simp [hz, hmid, Nat.pos_iff_ne_zero]
  · simp [hacl] at hcall

/-! Structural lemmas about the association-list operations and the
node projections. -/

theorem children_withChildren (n : Subhier) (ch : List (Lvl × Subhier)) :
    (n.withChildren ch).children = ch := by
  cases n; rfl

theorem subs_withChildren (n : Subhier) (ch : List (Lvl × Subhier)) :
    (n.withChildren ch).subs = n.subs := by
  cases n; rfl

theorem shared_withChildren (n : Subhier) (ch : List (Lvl × Subhier)) :
    (n.withChildren ch).shared = n.shared := by
  cases n; rfl

theorem children_withSubs (n : Subhier) (s : List Subleaf) :
    (n.withSubs s).children = n.children := by
  cases n; rfl

theorem subs_withSubs (n : Subhier) (s : List Subleaf) :
    (n.withSubs s).subs = s := by
  cases n; rfl

theorem shared_withSubs (n : Subhier) (s : List Subleaf) :
    (n.withSubs s).shared = n.shared := by
  cases n; rfl

theorem children_withShared (n : Subhier) (s : List SharedGroup) :
    (n.withShared s).children = n.children := by
  cases n; rfl

theorem subs_withShared (n : Subhier) (s : List SharedGroup) :
    (n.withShared s).subs = n.subs := by
  cases n; rfl

theorem shared_withShared (n : Subhier) (s : List SharedGroup) :
    (n.withShared s).shared = s := by
  cases n; rfl

theorem hashFind_replace_self {α : Type} (m : List (Lvl × α)) (k : Lvl) (v w : α)
    (h : hashFind m k = some w) : hashFind (hashReplace m k v) k = some v := by
  induction m with
  | nil => simp [hashFind] at h
  | cons e rest ih =>
    obtain ⟨k0, v0⟩ := e
    by_cases hk : k0 = k
    · simp [hashFind, hashReplace, hk]
    · simp only [hashFind, hashReplace, hk, if_false] at h ⊢
      exact ih h

theorem hashFind_replace_other {α : Type} (m : List (Lvl × α)) (k : Lvl) (v : α)
    (k' : Lvl) (h : k' ≠ k) : hashFind (hashReplace m k v) k' = hashFind m k' := by
  induction m with
  | nil => rfl
  | cons e rest ih =>
    obtain ⟨k0, v0⟩ := e
    by_cases hk : k0 = k
    · subst hk
      have hk' : ¬(k0 = k') := fun he => h he.symm
      simp [hashFind, hashReplace, hk']
    · by_cases hk2 : k0 = k'
      · subst hk2
        simp [hashFind, hashReplace, hk]
      · simp [hashFind, hashReplace, hk, hk2, ih]

theorem subsAt_nil (n : Subhier) : subsAt n [] = some n.subs := rfl

theorem sharedAt_nil (n : Subhier) : sharedAt n [] = some n.shared := rfl

theorem subsAt_cons (n : Subhier) (t : Lvl) (p : List Lvl) :
    subsAt n (t :: p) =
      match hashFind n.children t with
      | none => none
      | some b => subsAt b p := by
  unfold subsAt
  cases hf : hashFind n.children t with
  | none => simp [descend, hf]
  | some b => simp [descend, hf]

theorem sharedAt_cons (n : Subhier) (t : Lvl) (p : List Lvl) :
    sharedAt n (t :: p) =
      match hashFind n.children t with
      | none => none
      | some b => sharedAt b p := by
  unfold sharedAt
  cases hf : hashFind n.children t with
  | none => simp [descend, hf]
  | some b => simp [descend, hf]

theorem subs__send_rc_ok (env : Env) (l : Subleaf) (q : Nat) (r : Bool)
    (hins : env.insert l.clientCid ≠ 1)
    (hacl : env.acl l.clientCid = MOSQ_ERR_SUCCESS ∨
      env.acl l.clientCid = MOSQ_ERR_ACL_DENIED) :
    (subs__send env l q r).1 = 0 := by
  unfold subs__send
  rcases hacl with h | h
  · have h2 : env.acl l.clientCid ≠ MOSQ_ERR_ACL_DENIED := by
      rw [h]; decide
    simp [h, h2, hins, MOSQ_ERR_SUCCESS, MOSQ_ERR_ACL_DENIED]
  · simp [h, MOSQ_ERR_SUCCESS, MOSQ_ERR_ACL_DENIED]

theorem subs__shared_process_rc_ok (env : Env) (groups : List SharedGroup)
    (q : Nat) (r : Bool) (hins : ∀ cid, env.insert cid ≠ 1)
    (hacl : ∀ cid, env.acl cid = MOSQ_ERR_SUCCESS ∨ env.acl cid = MOSQ_ERR_ACL_DENIED) :
    (subs__shared_process env groups q r).1 = 0 := by
  induction groups with
  | nil => rfl
  | cons g rest ih =>
    obtain ⟨name, ls⟩ := g
    cases ls with
    | nil => simp [subs__shared_process, ih, MOSQ_ERR_SUCCESS]
    | cons l tl =>
      have := subs__send_rc_ok env l q r (hins _) (hacl _)
      simp [subs__shared_process, this, ih]

theorem subs__process_loop_rc_ok (env : Env) (sid : Lvl) (leaves : List Subleaf)
    (q : Nat) (r : Bool) (hins : ∀ cid, env.insert cid ≠ 1)
    (hacl : ∀ cid, env.acl cid = MOSQ_ERR_SUCCESS ∨ env.acl cid = MOSQ_ERR_ACL_DENIED) :
    (subs__process_loop env sid leaves q r).1 = 0 := by
  rw [subs__process_loop_rc]
  have hany : ((leaves.filter (fun l => !subsSkip sid l)).any
      (fun l => (subs__send env l q r).1 ≠ 0)) = false := by
    rw [List.any_eq_false]
    intro x hx
    simp [subs__send_rc_ok env x q r (hins _) (hacl _)]
  rw [hany]
  rfl

theorem subs__process_rc_ok (env : Env) (node : Subhier) (src : Option Lvl)
    (q : Nat) (r : Bool) (hins : ∀ cid, env.insert cid ≠ 1)
    (hacl : ∀ cid, env.acl cid = MOSQ_ERR_SUCCESS ∨ env.acl cid = MOSQ_ERR_ACL_DENIED) :
    (subs__process env node src q r).1 =
      if node.subs.isEmpty && node.shared.isEmpty
        then MOSQ_ERR_NO_SUBSCRIBERS else MOSQ_ERR_SUCCESS := by
  have hs0 := subs__shared_process_rc_ok env node.shared q r hins hacl
  cases src with
  | none =>
    simp only [subs__process]
    by_cases hc : node.subs.isEmpty && node.shared.isEmpty <;>
      simp [hc, hs0, MOSQ_ERR_SUCCESS]
  | some sid =>
    have hl0 := subs__process_loop_rc_ok env sid node.subs q r hins hacl
    simp only [subs__process]
    by_cases hc : node.subs.isEmpty && node.shared.isEmpty <;>
      simp [hc, hs0, hl0, MOSQ_ERR_SUCCESS]

/-- C10: a publish whose source client id is NULL delivers to no normal
leaf - the normal-subscriber loop is skipped wholesale and only shared
groups are processed - and a normal leaf whose owning client has a NULL
id is skipped even when its no-local option is unset. -/
theorem c10_null_source_and_null_id :
    (∀ (env : Env) (node : Subhier) (q : Nat) (r : Bool),
      (subs__process env node none q r).2.1 =
        (subs__shared_process env node.shared q r).2.1) ∧
    (∀ (env : Env) (sid : Lvl) (l : Subleaf) (rest : List Subleaf) (q : Nat) (r : Bool),
      l.clientId = none →
      subs__process_loop env sid (l :: rest) q r = subs__process_loop env sid rest q r) := by
  constructor
  · intro env node q r
    simp only [subs__process]
    by_cases hc : node.subs.isEmpty && node.shared.isEmpty <;> simp [hc]
  · intro env sid l rest q r h
    have hskip : subsSkip sid l = true := by
      unfold subsSkip
      rw [h]
    simp [subs__process_loop, hskip]

/-- C10 witness: the theorem applied to a NULL-id leaf with no-local
unset and a node carrying one shared group. -/
theorem c10_witness :
    (subs__process envAllOk (Subhier.mk [] [] [] [(['g'], [⟨4, some ['z'], 0, 0, []⟩])])
        none 1 false).2.1 =
      (subs__shared_process envAllOk [(['g'], [⟨4, some ['z'], 0, 0, []⟩])] 1 false).2.1 ∧
    subs__process_loop envAllOk ['s'] [⟨7, none, 0, 0, []⟩] 0 false =
      subs__process_loop envAllOk ['s'] [] 0 false :=
  ⟨c10_null_source_and_null_id.1 envAllOk
      (Subhier.mk [] [] [] [(['g'], [⟨4, some ['z'], 0, 0, []⟩])]) 1 false,
   c10_null_source_and_null_id.2 envAllOk ['s'] ⟨7, none, 0, 0, []⟩ [] 0 false rfl⟩

/-- C5 counterexample: a normal leaf whose owning client's id is NULL is
skipped although its no-local option is unset and the claimed skip
condition is false, so "skipped exactly when no-local is set and the ids
are equal" fails on the code. -/
theorem c5_counterexample :
    MQTT_SUB_OPT_GET_NO_LOCAL 0 = false ∧
    subsSkip ['s'] ⟨7, none, 0, 0, []⟩ = true ∧
    (subs__process_loop envAllOk ['s'] [⟨7, none, 0, 0, []⟩] 0 false).2 = [] := by
  decide

/-- C5 amended: a normal leaf is skipped exactly when its owning
client's id is absent, or when its no-local option is set and the
publishing client's id equals the subscriber's client id; every
non-skipped leaf is handed to `subs__send`, whose first step is the ACL
check. -/
theorem c5_amended_skip_condition :
    (∀ (sid : Lvl) (l : Subleaf),
      subsSkip sid l = true ↔
        (l.clientId = none ∨
          (MQTT_SUB_OPT_GET_NO_LOCAL l.subscription_options = true ∧
            l.clientId = some sid))) ∧
    (∀ (env : Env) (sid : Lvl) (leaves : List Subleaf) (q : Nat) (r : Bool),
      (subs__process_loop env sid leaves q r).2 =
        ((leaves.filter (fun l => !subsSkip sid l)).map
          (fun l => (subs__send env l q r).2)).flatten) := by
  refine ⟨?_, subs__process_loop_trace⟩
  intro sid l
  unfold subsSkip
  cases h : l.clientId with
  | none => simp
  | some cid =>
    by_cases hn : MQTT_SUB_OPT_GET_NO_LOCAL l.subscription_options <;>
      by_cases hc : cid = sid <;> simp [hn, hc]

/-- C2 counterexample: a node with two deliverable leaves where the
first enqueue fails and the second succeeds; both are attempted, yet the
node's publish result is the generic error 1 - not success - refuting
"Error only when every deliverable leaf failed". -/
theorem c2_counterexample :
    (let res := subs__process envOneFail
       (Subhier.mk [] [] [⟨1, some ['a'], 0, 0, []⟩, ⟨2, some ['b'], 0, 0, []⟩] [])
       (some ['s']) 0 false
     res.1 = 1 ∧ res.2.1.map EnqueueCall.cid = [1, 2] ∧ envOneFail.insert 2 ≠ 1) := by
  decide

/-- C2 amended: a delivery-time error on one leaf does not stop the
attempts on the remaining leaves of the same node - the trace is exactly
the concatenation over all non-skipped leaves - but the result is the
error 1 as soon as any attempted leaf fails, even if others succeed, and
a branch whose node reports an error aborts the matcher's remaining
sibling branches (here the failing literal branch hides the `+`
branch). -/
theorem c2_amended_delivery_errors :
    (∀ (env : Env) (sid : Lvl) (leaves : List Subleaf) (q : Nat) (r : Bool),
      (subs__process_loop env sid leaves q r).2 =
        ((leaves.filter (fun l => !subsSkip sid l)).map
          (fun l => (subs__send env l q r).2)).flatten) ∧
    (∀ (env : Env) (sid : Lvl) (leaves : List Subleaf) (q : Nat) (r : Bool),
      (subs__process_loop env sid leaves q r).1 =
        if (leaves.filter (fun l => !subsSkip sid l)).any
            (fun l => (subs__send env l q r).1 ≠ 0) then 1 else 0) ∧
    (let nodeB := Subhier.mk [] [(['a'], Subhier.mk ['a'] [] [⟨1, some ['a'], 0, 0, []⟩] []),
        (['+'], Subhier.mk ['+'] [] [⟨2, some ['b'], 0, 0, []⟩] [])] [] []
     let res := sub__search envOneFail nodeB [['a']] (some ['s']) 0 false
     res.1 = 1 ∧ res.2.1.map EnqueueCall.cid = [1]) :=
  ⟨subs__process_loop_trace, subs__process_loop_rc, by decide⟩

/-- C3 counterexample: a node whose single normal leaf is denied by the
ACL check: nothing reaches the enqueue sink, yet the node's result is
success, refuting "Success iff at least one deliverable subscriber was
found and handed to the sink". -/
theorem c3_counterexample :
    (let res := subs__process envDenyAll
       (Subhier.mk [] [] [⟨1, some ['a'], 0, 0, []⟩] []) (some ['s']) 1 false
     res.1 = MOSQ_ERR_SUCCESS ∧ res.2.1 = []) := by
  decide

theorem searchFold_success (hs : Bool) (tr : List EnqueueCall)
    (res : Int × List EnqueueCall × Subhier) (h : res.1 = MOSQ_ERR_SUCCESS) :
    searchFold hs tr res = Except.ok (true, tr ++ res.2.1, res.2.2) := by
  simp [searchFold, h]

theorem searchFold_nosubs (hs : Bool) (tr : List EnqueueCall)
    (res : Int × List EnqueueCall × Subhier) (h : res.1 = MOSQ_ERR_NO_SUBSCRIBERS) :
    searchFold hs tr res = Except.ok (hs, tr ++ res.2.1, res.2.2) := by
  simp [searchFold, h, MOSQ_ERR_NO_SUBSCRIBERS, MOSQ_ERR_SUCCESS]

theorem searchHasSubscribers_cons (n : Subhier) (t : Lvl) (rest : List Lvl) :
    searchHasSubscribers n (t :: rest) =
      (branchHas n t rest || (branchHas n plusLvl rest || hashStageHas n)) := rfl

theorem sub__search_hash_rc (env : Env)
    (hins : ∀ cid, env.insert cid ≠ 1)
    (hacl : ∀ cid, env.acl cid = MOSQ_ERR_SUCCESS ∨ env.acl cid = MOSQ_ERR_ACL_DENIED)
    (st : Bool × List EnqueueCall × Subhier) (src : Option Lvl) (q : Nat) (r : Bool) :
    (sub__search_hash env st src q r).1 =
      (if st.1 || hashStageHas st.2.2 then MOSQ_ERR_SUCCESS else MOSQ_ERR_NO_SUBSCRIBERS) ∧
    (sub__search_hash env st src q r).2.2.subs = st.2.2.subs ∧
    (sub__search_hash env st src q r).2.2.shared = st.2.2.shared := by
  obtain ⟨hs, tr, n⟩ := st
  cases hf : hashFind n.children hashLvl with
  | none =>
    have hhs : hashStageHas n = false := by simp [hashStageHas, hf]
    simp only [sub__search_hash, hf, hhs]
    cases hs <;> simp
  | some b =>
    have hprc := subs__process_rc_ok env b src q r hins hacl
    by_cases hbc : b.children.isEmpty
    · by_cases hpres : b.subs.isEmpty && b.shared.isEmpty
      · rw [if_pos hpres] at hprc
        have hhs : hashStageHas n = false := by
          simp [hashStageHas, hf, hbc, nodeHasSubscribers, hpres]
        have hfold := searchFold_nosubs hs tr
          ((subs__process env b src q r).1, (subs__process env b src q r).2.1,
           n.withChildren (hashReplace n.children hashLvl (subs__process env b src q r).2.2))
          hprc
        simp only [sub__search_hash, hf, hbc, if_true, hfold, hhs]
        cases hs <;> simp [subs_withChildren, shared_withChildren]
      · rw [if_neg hpres] at hprc
        have hhs : hashStageHas n = true := by
          simp only [hashStageHas, hf, hbc, nodeHasSubscribers, Bool.true_and]
          simp [hpres]
        have hfold := searchFold_success hs tr
          ((subs__process env b src q r).1, (subs__process env b src q r).2.1,
           n.withChildren (hashReplace n.children hashLvl (subs__process env b src q r).2.2))
          hprc
        simp only [sub__search_hash, hf, hbc, if_true, hfold, hhs]
        simp [subs_withChildren, shared_withChildren]
    · have hhs : hashStageHas n = false := by simp [hashStageHas, hf, hbc]
      simp only [sub__search_hash, hf, hbc, if_false, hhs]
      cases hs <;> simp

theorem sub__search_branch_rc (env : Env)
    (hins : ∀ cid, env.insert cid ≠ 1)
    (hacl : ∀ cid, env.acl cid = MOSQ_ERR_SUCCESS ∨ env.acl cid = MOSQ_ERR_ACL_DENIED)
    (src : Option Lvl) (q : Nat) (r : Bool) (k : Lvl) (rest : List Lvl)
    (recur : Subhier → Int × List EnqueueCall × Subhier)
    (hrec : ∀ b : Subhier,
      (recur b).1 = (if searchHasSubscribers b rest then MOSQ_ERR_SUCCESS
        else MOSQ_ERR_NO_SUBSCRIBERS) ∧
      (recur b).2.2.subs = b.subs ∧ (recur b).2.2.shared = b.shared)
    (st : Bool × List EnqueueCall × Subhier) :
    ∃ st' : Bool × List EnqueueCall × Subhier,
      sub__search_branch env st k rest src q r recur = Except.ok st' ∧
      st'.1 = (st.1 || branchHas st.2.2 k rest) ∧
      st'.2.2.subs = st.2.2.subs ∧
      st'.2.2.shared = st.2.2.shared ∧
      (∀ k' : Lvl, k' ≠ k → hashFind st'.2.2.children k' = hashFind st.2.2.children k') := by
  cases hf : hashFind st.2.2.children k with
  | none =>
    refine ⟨st, by simp [sub__search_branch, hf], ?_, rfl, rfl, fun k' _ => rfl⟩
    simp [branchHas, hf]
  | some b =>
    obtain ⟨hr1, hr2, hr3⟩ := hrec b
    have hbr : branchHas st.2.2 k rest =
        (searchHasSubscribers b rest || (rest.isEmpty && nodeHasSubscribers b)) := by
      simp [branchHas, hf]
    have hfold1 : searchFold st.1 st.2.1
        ((recur b).1, (recur b).2.1,
         st.2.2.withChildren (hashReplace st.2.2.children k (recur b).2.2)) =
        Except.ok (st.1 || searchHasSubscribers b rest,
          st.2.1 ++ (recur b).2.1,
          st.2.2.withChildren (hashReplace st.2.2.children k (recur b).2.2)) := by
      by_cases hsb : searchHasSubscribers b rest
      · rw [if_pos hsb] at hr1
        rw [searchFold_success st.1 st.2.1
          ((recur b).1, (recur b).2.1,
            st.2.2.withChildren (hashReplace st.2.2.children k (recur b).2.2)) hr1]
        simp [hsb]
      · rw [if_neg hsb] at hr1
        rw [searchFold_nosubs st.1 st.2.1
          ((recur b).1, (recur b).2.1,
            st.2.2.withChildren (hashReplace st.2.2.children k (recur b).2.2)) hr1]
        simp [hsb]
    by_cases hre : rest.isEmpty
    · have hprc := subs__process_rc_ok env (recur b).2.2 src q r hins hacl
      rw [hr2, hr3] at hprc
      have hfold2 : searchFold (st.1 || searchHasSubscribers b rest)
          (st.2.1 ++ (recur b).2.1)
          ((subs__process env (recur b).2.2 src q r).1,
           (subs__process env (recur b).2.2 src q r).2.1,
           (st.2.2.withChildren (hashReplace st.2.2.children k (recur b).2.2)).withChildren
             (hashReplace (st.2.2.withChildren
               (hashReplace st.2.2.children k (recur b).2.2)).children k
               (subs__process env (recur b).2.2 src q r).2.2)) =
          Except.ok ((st.1 || searchHasSubscribers b rest) || nodeHasSubscribers b,
            (st.2.1 ++ (recur b).2.1) ++ (subs__process env (recur b).2.2 src q r).2.1,
            (st.2.2.withChildren (hashReplace st.2.2.children k (recur b).2.2)).withChildren
              (hashReplace (st.2.2.withChildren
                (hashReplace st.2.2.children k (recur b).2.2)).children k
                (subs__process env (recur b).2.2 src q r).2.2)) := by
        by_cases hpres : b.subs.isEmpty && b.shared.isEmpty
        · rw [if_pos hpres] at hprc
          rw [searchFold_nosubs (st.1 || searchHasSubscribers b rest)
            (st.2.1 ++ (recur b).2.1)
            ((subs__process env (recur b).2.2 src q r).1,
             (subs__process env (recur b).2.2 src q r).2.1,
             (st.2.2.withChildren (hashReplace st.2.2.children k (recur b).2.2)).withChildren
               (hashReplace (st.2.2.withChildren
                 (hashReplace st.2.2.children k (recur b).2.2)).children k
                 (subs__process env (recur b).2.2 src q r).2.2)) hprc]
          simp [nodeHasSubscribers, hpres]
        · rw [if_neg hpres] at hprc
          rw [searchFold_success (st.1 || searchHasSubscribers b rest)
            (st.2.1 ++ (recur b).2.1)
            ((subs__process env (recur b).2.2 src q r).1,
             (subs__process env (recur b).2.2 src q r).2.1,
             (st.2.2.withChildren (hashReplace st.2.2.children k (recur b).2.2)).withChildren
               (hashReplace (st.2.2.withChildren
                 (hashReplace st.2.2.children k (recur b).2.2)).children k
                 (subs__process env (recur b).2.2 src q r).2.2)) hprc]
          simp [nodeHasSubscribers, hpres]
      refine ⟨((st.1 || searchHasSubscribers b rest) || nodeHasSubscribers b,
          (st.2.1 ++ (recur b).2.1) ++ (subs__process env (recur b).2.2 src q r).2.1,
          (st.2.2.withChildren (hashReplace st.2.2.children k (recur b).2.2)).withChildren
            (hashReplace (st.2.2.withChildren
              (hashReplace st.2.2.children k (recur b).2.2)).children k
              (subs__process env (recur b).2.2 src q r).2.2)),
        ?_, ?_, ?_, ?_, ?_⟩
      · simp [sub__search_branch, hf, hfold1, hre, hfold2]
      · simp [hbr, hre, Bool.or_assoc]
      · simp [subs_withChildren]
      · simp [shared_withChildren]
      · intro k' hk'
        simp only [children_withChildren]
        rw [hashFind_replace_other _ _ _ k' hk', hashFind_replace_other _ _ _ k' hk']
    · have hre' : rest.isEmpty = false := by simpa using hre
      refine ⟨(st.1 || searchHasSubscribers b rest,
          st.2.1 ++ (recur b).2.1,
          st.2.2.withChildren (hashReplace st.2.2.children k (recur b).2.2)), ?_, ?_, ?_, ?_, ?_⟩
      · simp [sub__search_branch, hf, hfold1, hre']
      · simp [hbr, hre']
      · simp [subs_withChildren]
      · simp [shared_withChildren]
      · intro k' hk'
        simp only [children_withChildren]
        exact hashFind_replace_other _ _ _ k' hk'

theorem sub__search_rc_ok (env : Env)
    (hins : ∀ cid, env.insert cid ≠ 1)
    (hacl : ∀ cid, env.acl cid = MOSQ_ERR_SUCCESS ∨ env.acl cid = MOSQ_ERR_ACL_DENIED)
    (src : Option Lvl) (q : Nat) (r : Bool) :
    ∀ (split : List Lvl), plusLvl ∉ split → hashLvl ∉ split → ∀ (node : Subhier),
      (sub__search env node split src q r).1 =
        (if searchHasSubscribers node split then MOSQ_ERR_SUCCESS
          else MOSQ_ERR_NO_SUBSCRIBERS) ∧
      (sub__search env node split src q r).2.2.subs = node.subs ∧
      (sub__search env node split src q r).2.2.shared = node.shared := by
  intro split
  induction split with
  | nil =>
    intro _ _ node
    have h := sub__search_hash_rc env hins hacl (false, [], node) src q r
    simpa [sub__search, searchHasSubscribers] using h
  | cons t rest ih =>
    intro hplus hhash node
    have hplus_t : plusLvl ≠ t := fun he => hplus (he ▸ List.mem_cons_self t rest)
    have hhash_t : hashLvl ≠ t := fun he => hhash (he ▸ List.mem_cons_self t rest)
    have hplus' : plusLvl ∉ rest := fun hm => hplus (List.mem_cons_of_mem t hm)
    have hhash' : hashLvl ∉ rest := fun hm => hhash (List.mem_cons_of_mem t hm)
    have hrec : ∀ b : Subhier,
        (sub__search env b rest src q r).1 =
          (if searchHasSubscribers b rest then MOSQ_ERR_SUCCESS
            else MOSQ_ERR_NO_SUBSCRIBERS) ∧
        (sub__search env b rest src q r).2.2.subs = b.subs ∧
        (sub__search env b rest src q r).2.2.shared = b.shared :=
      fun b => ih hplus' hhash' b
    obtain ⟨st1, he1, hst1, hs1sub, hs1sh, hs1find⟩ :=
      sub__search_branch_rc env hins hacl src q r t rest
        (fun b => sub__search env b rest src q r) hrec (false, [], node)
    obtain ⟨st2, he2, hst2, hs2sub, hs2sh, hs2find⟩ :=
      sub__search_branch_rc env hins hacl src q r plusLvl rest
        (fun b => sub__search env b rest src q r) hrec st1
    have hunfold : sub__search env node (t :: rest) src q r =
        sub__search_hash env st2 src q r := by
      simp only [sub__search, he1, he2]
    have hfindplus : hashFind st1.2.2.children plusLvl = hashFind node.children plusLvl :=
      hs1find plusLvl hplus_t
    have hbr2 : branchHas st1.2.2 plusLvl rest = branchHas node plusLvl rest := by
      unfold branchHas
      rw [hfindplus]
    have hfindhash : hashFind st2.2.2.children hashLvl = hashFind node.children hashLvl := by
      rw [hs2find hashLvl (by decide), hs1find hashLvl hhash_t]
    have hhs2 : hashStageHas st2.2.2 = hashStageHas node := by
      unfold hashStageHas
      rw [hfindhash]
    have hfin := sub__search_hash_rc env hins hacl st2 src q r
    refine ⟨?_, ?_, ?_⟩
    · rw [hunfold, hfin.1, hhs2, hst2, hbr2, hst1, searchHasSubscribers_cons]
      simp [Bool.or_assoc]
    · rw [hunfold, hfin.2.1, hs2sub, hs1sub]
    · rw [hunfold, hfin.2.2, hs2sh, hs1sh]

theorem splitLevels_chars (s : List Char) :
    ∀ l ∈ splitLevels s, ∀ ch ∈ l, ch ∈ s := by
  induction s with
  | nil =>
    intro l hl ch hch
    simp [splitLevels] at hl
    subst hl
    simp at hch
  | cons c cs ih =>
    intro l hl ch hch
    by_cases hc : c = '/'
    · simp only [splitLevels, hc, if_true] at hl
      rcases List.mem_cons.mp hl with h | h
      · subst h
        simp at hch
      · exact List.mem_cons_of_mem c (ih l h ch hch)
    · simp only [splitLevels, hc, if_false] at hl
      cases hs : splitLevels cs with
      | nil =>
        rw [hs] at hl
        simp only [List.mem_singleton] at hl
        subst hl
        simp only [List.mem_singleton] at hch
        simp [hch]
      | cons l0 ls =>
        rw [hs] at hl
        rcases List.mem_cons.mp hl with h | h
        · subst h
          rcases List.mem_cons.mp hch with h2 | h2
          · simp [h2]
          · exact List.mem_cons_of_mem c
              (ih l0 (by rw [hs]; exact List.mem_cons_self l0 ls) ch h2)
        · exact List.mem_cons_of_mem c
            (ih l (by rw [hs]; exact List.mem_cons_of_mem l0 h) ch hch)

theorem tokenisePub_no_wildcards (topic : List Char) (split : List Lvl)
    (h : tokenisePub topic = some split) : plusLvl ∉ split ∧ hashLvl ∉ split := by
  unfold tokenisePub at h
  by_cases h0 : topic.isEmpty || topic.length > 65535
  · simp [h0] at h
  · by_cases hw : topic.contains '+' || topic.contains '#'
    · rw [if_neg h0, if_pos hw] at h
      exact absurd h (by simp)
    · rw [if_neg h0, if_neg hw] at h
      injection h with h
      have hnp : '+' ∉ topic := by
        simp only [Bool.or_eq_true, not_or] at hw
        simpa using hw.1
      have hnh : '#' ∉ topic := by
        simp only [Bool.or_eq_true, not_or] at hw
        simpa using hw.2
      have hlev : ∀ l ∈ splitLevels topic, l ≠ plusLvl ∧ l ≠ hashLvl := by
        intro l hl
        constructor
        · intro he
          exact hnp (splitLevels_chars topic l hl '+'
            (by rw [he]; exact List.mem_singleton.mpr rfl))
        · intro he
          exact hnh (splitLevels_chars topic l hl '#'
            (by rw [he]; exact List.mem_singleton.mpr rfl))
      subst h
      constructor
      · intro hm
        by_cases hd : topic.head? = some '$'
        · rw [if_pos hd] at hm
          exact absurd rfl (hlev plusLvl hm).1
        · rw [if_neg hd] at hm
          rcases List.mem_cons.mp hm with h2 | h2
          · exact absurd h2.symm (by decide)
          · exact absurd rfl (hlev plusLvl h2).1
      · intro hm
        by_cases hd : topic.head? = some '$'
        · rw [if_pos hd] at hm
          exact absurd rfl (hlev hashLvl hm).2
        · rw [if_neg hd] at hm
          rcases List.mem_cons.mp hm with h2 | h2
          · exact absurd h2.symm (by decide)
          · exact absurd rfl (hlev hashLvl h2).2

/-- C3 amended: with no delivery failures, the matcher's result is
decided by mere presence of subscribers, not deliverability.  For a
whole `sub__search` invocation on any tokenised publish topic, the code
is success exactly when the node enumeration (literal branch, `"+"`
branch, their end-of-topic terminal nodes, and the childless `"#"`
child, recursively) reaches at least one node with a normal leaf or a
shared group, and no-subscribers exactly otherwise; per matched node,
no-subscribers exactly when the node has neither normal leaves nor
shared groups and success exactly when it has either - even if every
leaf was skipped by ACL denial, no-local or an absent id and nothing
reached the sink. -/
theorem c3_amended_presence_decides (env : Env)
    (hins : ∀ cid, env.insert cid ≠ 1)
    (hacl : ∀ cid, env.acl cid = MOSQ_ERR_SUCCESS ∨ env.acl cid = MOSQ_ERR_ACL_DENIED) :
    (∀ (node : Subhier) (topic : List Char) (split : List Lvl) (src : Option Lvl)
        (q : Nat) (r : Bool), tokenisePub topic = some split →
      ((sub__search env node split src q r).1 = MOSQ_ERR_SUCCESS ↔
        searchHasSubscribers node split = true) ∧
      ((sub__search env node split src q r).1 = MOSQ_ERR_NO_SUBSCRIBERS ↔
        searchHasSubscribers node split = false)) ∧
    (∀ (node : Subhier) (src : Option Lvl) (q : Nat) (r : Bool),
      ((subs__process env node src q r).1 = MOSQ_ERR_NO_SUBSCRIBERS ↔
        (node.subs = [] ∧ node.shared = [])) ∧
      ((subs__process env node src q r).1 = MOSQ_ERR_SUCCESS ↔
        (node.subs ≠ [] ∨ node.shared ≠ []))) := by
  constructor
  · intro node topic split src q r htok
    obtain ⟨hplus, hhash⟩ := tokenisePub_no_wildcards topic split htok
    have h := (sub__search_rc_ok env hins hacl src q r split hplus hhash node).1
    rw [h]
    by_cases hsub : searchHasSubscribers node split <;>
      simp [hsub, MOSQ_ERR_SUCCESS, MOSQ_ERR_NO_SUBSCRIBERS]
  · intro node src q r
    rw [subs__process_rc_ok env node src q r hins hacl]
    by_cases h1 : node.subs.isEmpty <;> by_cases h2 : node.shared.isEmpty <;>
      simp_all [List.isEmpty_iff, MOSQ_ERR_NO_SUBSCRIBERS, MOSQ_ERR_SUCCESS]

/-- C3 witness: the amended theorem at a concrete all-succeeding
environment: a whole-invocation search over a two-level trie holding one
leaf for topic `x`, and a single node with one leaf. -/
theorem c3_witness :
    (((sub__search envAllOk
        (Subhier.mk [] [([], Subhier.mk []
          [(['x'], Subhier.mk ['x'] [] [⟨1, some ['a'], 0, 0, []⟩] [])] [] [])] [] [])
        [[], ['x']] (some ['s']) 1 false).1 = MOSQ_ERR_SUCCESS ↔
      searchHasSubscribers
        (Subhier.mk [] [([], Subhier.mk []
          [(['x'], Subhier.mk ['x'] [] [⟨1, some ['a'], 0, 0, []⟩] [])] [] [])] [] [])
        [[], ['x']] = true)) ∧
    (((sub__search envAllOk
        (Subhier.mk [] [([], Subhier.mk []
          [(['x'], Subhier.mk ['x'] [] [⟨1, some ['a'], 0, 0, []⟩] [])] [] [])] [] [])
        [[], ['x']] (some ['s']) 1 false).1 = MOSQ_ERR_NO_SUBSCRIBERS ↔
      searchHasSubscribers
        (Subhier.mk [] [([], Subhier.mk []
          [(['x'], Subhier.mk ['x'] [] [⟨1, some ['a'], 0, 0, []⟩] [])] [] [])] [] [])
        [[], ['x']] = false)) ∧
    (((subs__process envAllOk (Subhier.mk [] [] [⟨1, some ['a'], 0, 0, []⟩] [])
        (some ['s']) 1 false).1 = MOSQ_ERR_NO_SUBSCRIBERS ↔
      (([⟨1, some ['a'], 0, 0, []⟩] : List Subleaf) = [] ∧
        ([] : List SharedGroup) = [])) ∧
    ((subs__process envAllOk (Subhier.mk [] [] [⟨1, some ['a'], 0, 0, []⟩] [])
        (some ['s']) 1 false).1 = MOSQ_ERR_SUCCESS ↔
      (([⟨1, some ['a'], 0, 0, []⟩] : List Subleaf) ≠ [] ∨
        ([] : List SharedGroup) ≠ []))) :=
  have hins : ∀ cid, envAllOk.insert cid ≠ 1 := fun cid => by simp [envAllOk]
  have hacl : ∀ cid, envAllOk.acl cid = MOSQ_ERR_SUCCESS ∨
      envAllOk.acl cid = MOSQ_ERR_ACL_DENIED := fun _ => Or.inl rfl
  have hmain := (c3_amended_presence_decides envAllOk hins hacl).1
    (Subhier.mk [] [([], Subhier.mk []
      [(['x'], Subhier.mk ['x'] [] [⟨1, some ['a'], 0, 0, []⟩] [])] [] [])] [] [])
    "x".toList [[], ['x']] (some ['s']) 1 false (by decide)
  ⟨hmain.1, hmain.2,
   (c3_amended_presence_decides envAllOk hins hacl).2
     (Subhier.mk [] [] [⟨1, some ['a'], 0, 0, []⟩] []) (some ['s']) 1 false⟩

/-- C4 witness: the theorem at a concrete environment and leaf. -/
theorem c4_witness :
    (envAllOk.midGen 3 ≠ 0) ∧
    ∀ call ∈ (subs__send envAllOk ⟨3, some ['x'], 9, 1, []⟩ 2 true).2,
      call.qos = (if envAllOk.upgrade_outgoing_qos
          then MQTT_SUB_OPT_GET_QOS 1 else min 2 (MQTT_SUB_OPT_GET_QOS 1)) ∧
      (call.mid ≠ 0 ↔ 0 < call.qos) ∧
      call.mid = (if 0 < call.qos then envAllOk.midGen 3 else 0) ∧
      call.retain = (if MQTT_SUB_OPT_GET_RETAIN_AS_PUBLISHED 1 then true else false) :=
  ⟨by decide, c4_enqueue_sink_arguments envAllOk ⟨3, some ['x'], 9, 1, []⟩ 2 true (by decide)⟩

/-! Lemmas about `sub__add_leaf` on a list that already holds a leaf of
the subscribing client. -/

theorem sub__add_leaf_exists (c : Client) (sb : Subscription) (leaves : List Subleaf)
    (h : leaves.any (leafScanMatch c.id) = true) :
    (sub__add_leaf c sb leaves).1 = MOSQ_ERR_SUB_EXISTS ∧
    (sub__add_leaf c sb leaves).2.2 = none := by
  induction leaves with
  | nil => simp at h
  | cons l rest ih =>
    by_cases hm : leafScanMatch c.id l
    · simp [sub__add_leaf, hm]
    · simp only [List.any_cons, hm, Bool.false_or] at h
      simp [sub__add_leaf, hm, ih h]

theorem sub__add_leaf_unique_update (c : Client) (sb : Subscription)
    (leaves : List Subleaf) (hone : leaves.countP (leafScanMatch c.id) = 1) :
    ((sub__add_leaf c sb leaves).2.1).length = leaves.length ∧
    ((sub__add_leaf c sb leaves).2.1).countP (leafScanMatch c.id) = 1 ∧
    (∀ l ∈ (sub__add_leaf c sb leaves).2.1, leafScanMatch c.id l = true →
      l.subscription_options = sb.options ∧ l.identifier = sb.identifier) := by
  induction leaves with
  | nil => simp at hone
  | cons l rest ih =>
    by_cases hm : leafScanMatch c.id l
    · have hmatch : leafScanMatch c.id
          { l with identifier := sb.identifier, subscription_options := sb.options } = true := by
        unfold leafScanMatch at hm ⊢
        exact hm
      have hrest0 : rest.countP (leafScanMatch c.id) = 0 := by
        rw [List.countP_cons] at hone
        simp [hm] at hone
        exact List.countP_eq_zero.mpr (by simpa using hone)
      refine ⟨by simp [sub__add_leaf, hm], ?_, ?_⟩
      · simp [sub__add_leaf, hm, List.countP_cons, hmatch, hrest0]
      · intro x hx hmx
        simp only [sub__add_leaf, hm, if_true] at hx
        rcases List.mem_cons.mp hx with hx | hx
        · subst hx
          exact ⟨rfl, rfl⟩
        · exact absurd hmx (by simpa using List.countP_eq_zero.mp hrest0 x hx)
    · have hone' : rest.countP (leafScanMatch c.id) = 1 := by
        simp [List.countP_cons, hm] at hone
        exact hone
      obtain ⟨ih1, ih2, ih3⟩ := ih hone'
      refine ⟨?_, ?_, ?_⟩
      · simp [sub__add_leaf, hm, ih1]
      · simp [sub__add_leaf, hm, List.countP_cons, ih2]
      · intro x hx hmx
        simp only [sub__add_leaf, hm, if_false] at hx
        rcases List.mem_cons.mp hx with hx | hx
        · subst hx
          exact absurd hmx (by simpa using hm)
        · exact ih3 x hx hmx

/-- C7: when `sub_add` finds the leaf already present and updates it,
the engine surfaces `MOSQ_ERR_SUB_EXISTS` ("AlreadyExists") to clients
whose protocol version elides retained-message replay on re-subscribe
(mosq_p_mqtt31 and mosq_p_mqtt5), and returns `MOSQ_ERR_SUCCESS` ("Ok")
instead to the legacy version that requires retained replay on every
resubscribe (mosq_p_mqtt311) - in both the normal and the shared path. -/
theorem c7_already_exists_protocol (c : Client) (sb : Subscription) (node : Subhier)
    (cidx : List (Option Subleaf)) (g : Lvl) (gls : List Subleaf)
    (hn : node.subs.any (leafScanMatch c.id) = true)
    (hg : hashFind node.shared g = some gls)
    (hgl : gls.any (leafScanMatch c.id) = true) :
    (sub__add_normal c sb node cidx).1 =
      (if c.protocol = Protocol.mqtt31 ∨ c.protocol = Protocol.mqtt5
        then MOSQ_ERR_SUB_EXISTS else MOSQ_ERR_SUCCESS) ∧
    (sub__add_shared c sb node g cidx).1 =
      (if c.protocol = Protocol.mqtt31 ∨ c.protocol = Protocol.mqtt5
        then MOSQ_ERR_SUB_EXISTS else MOSQ_ERR_SUCCESS) := by
  obtain ⟨hrcN, _⟩ := sub__add_leaf_exists c sb node.subs hn
  obtain ⟨hrcG, _⟩ := sub__add_leaf_exists c sb gls hgl
  constructor
  · simp only [sub__add_normal, hrcN]
    by_cases hp : c.protocol = Protocol.mqtt31 ∨ c.protocol = Protocol.mqtt5 <;>
      simp [hp, MOSQ_ERR_SUB_EXISTS]
  · simp only [sub__add_shared, hg, hrcG]
    by_cases hp : c.protocol = Protocol.mqtt31 ∨ c.protocol = Protocol.mqtt5 <;>
      simp [hp, MOSQ_ERR_SUB_EXISTS]

/-- C7 witness: a mqtt311 client re-subscribing gets `MOSQ_ERR_SUCCESS`
although the leaf existed, at a concrete node holding its leaf both as a
normal subscription and in shared group `g`. -/
theorem c7_witness :
    (sub__add_normal ⟨1, some ['c'], Protocol.mqtt311⟩ ⟨['a'], 5, 2⟩
        (Subhier.mk ['a'] [] [⟨1, some ['c'], 0, 0, ['a']⟩] [(['g'], [⟨1, some ['c'], 0, 0, ['a']⟩])])
        []).1 =
      (if (⟨1, some ['c'], Protocol.mqtt311⟩ : Client).protocol = Protocol.mqtt31 ∨
          (⟨1, some ['c'], Protocol.mqtt311⟩ : Client).protocol = Protocol.mqtt5
        then MOSQ_ERR_SUB_EXISTS else MOSQ_ERR_SUCCESS) ∧
    (sub__add_shared ⟨1, some ['c'], Protocol.mqtt311⟩ ⟨['a'], 5, 2⟩
        (Subhier.mk ['a'] [] [⟨1, some ['c'], 0, 0, ['a']⟩] [(['g'], [⟨1, some ['c'], 0, 0, ['a']⟩])])
        ['g'] []).1 =
      (if (⟨1, some ['c'], Protocol.mqtt311⟩ : Client).protocol = Protocol.mqtt31 ∨
          (⟨1, some ['c'], Protocol.mqtt311⟩ : Client).protocol = Protocol.mqtt5
        then MOSQ_ERR_SUB_EXISTS else MOSQ_ERR_SUCCESS) :=
  c7_already_exists_protocol ⟨1, some ['c'], Protocol.mqtt311⟩ ⟨['a'], 5, 2⟩
    (Subhier.mk ['a'] [] [⟨1, some ['c'], 0, 0, ['a']⟩] [(['g'], [⟨1, some ['c'], 0, 0, ['a']⟩])])
    [] ['g'] [⟨1, some ['c'], 0, 0, ['a']⟩] (by decide) rfl (by decide)

/-! Level-length bounds delivered by the tokenizer. -/

theorem splitLevels_length_le (s : List Char) :
    ∀ l ∈ splitLevels s, l.length ≤ s.length := by
  induction s with
  | nil =>
    intro l hl
    simp [splitLevels] at hl
    simp [hl]
  | cons c cs ih =>
    intro l hl
    by_cases hc : c = '/'
    · simp only [splitLevels, hc, if_true] at hl
      rcases List.mem_cons.mp hl with h | h
      · simp [h]
      · exact Nat.le_succ_of_le (ih l h)
    · simp only [splitLevels, hc, if_false] at hl
      cases hs : splitLevels cs with
      | nil =>
        rw [hs] at hl
        simp only [List.mem_singleton] at hl
        subst hl
        simp only [List.length_cons, List.length_nil]
        omega
      | cons l0 ls =>
        rw [hs] at hl
        rcases List.mem_cons.mp hl with h | h
        · subst h
          have h2 : l0.length ≤ cs.length := ih l0 (by rw [hs]; exact List.mem_cons_self l0 ls)
          simp only [List.length_cons]
          omega
        · exact Nat.le_succ_of_le (ih l (by rw [hs]; exact List.mem_cons_of_mem l0 h))

theorem splitFirst_rem_le (s : List Char) :
    ∀ r, (splitFirst s).2 = some r → r.length ≤ s.length := by
  induction s with
  | nil => intro r hr; simp [splitFirst] at hr
  | cons c cs ih =>
    intro r hr
    by_cases hc : c = '/'
    · simp only [splitFirst, hc, if_true] at hr
      injection hr with hr
      subst hr
      simp [List.length_cons]
    · simp only [splitFirst, hc, if_false] at hr
      exact Nat.le_succ_of_le (ih r hr)

theorem tokeniseFilterBody_levels (s : List Char) (toks : List Lvl)
    (h : tokeniseFilterBody s = some toks) : ∀ l ∈ toks, l.length ≤ s.length := by
  intro l hl
  unfold tokeniseFilterBody at h
  by_cases he : s.isEmpty
  · simp [he] at h
  · by_cases hok : levelsOk (splitLevels s)
    · rw [if_neg he, if_pos hok] at h
      injection h with h
      subst h
      by_cases hd : s.head? = some '$'
      · rw [if_pos hd] at hl
        exact splitLevels_length_le s l hl
      · rw [if_neg hd] at hl
        rcases List.mem_cons.mp hl with h | h
        · simp [h]
        · exact splitLevels_length_le s l h
    · simp [he, hok] at h

theorem tokeniseSub_levels (s : List Char) (toks : List Lvl) (shn : Option Lvl)
    (h : tokeniseSub s = some (toks, shn)) : ∀ l ∈ toks, l.length ≤ 65535 := by
  intro l hl
  unfold tokeniseSub at h
  by_cases h0 : s.isEmpty || s.length > 65535
  · simp [h0] at h
  · have hslen : s.length ≤ 65535 := by
      simp only [Bool.or_eq_true, not_or, decide_eq_true_eq] at h0
      omega
    by_cases hsh : listStartsWith shareMark s
    · rw [if_neg h0, if_pos hsh] at h
      split at h
      · exact absurd h (by simp)
      · rename_i remainder hsf
        by_cases hg : (splitFirst (s.drop 7)).1.isEmpty ||
            (splitFirst (s.drop 7)).1.contains '+' || (splitFirst (s.drop 7)).1.contains '#'
        · rw [if_pos hg] at h
          exact absurd h (by simp)
        · rw [if_neg hg] at h
          split at h
          · rename_i levs hb
            have hlt : levs = toks := by
              injection h with h1
              injection h1 with h2 h3
            subst hlt
            calc l.length ≤ remainder.length := tokeniseFilterBody_levels remainder levs hb l hl
              _ ≤ (s.drop 7).length := splitFirst_rem_le (s.drop 7) remainder hsf
              _ ≤ s.length := by simp
              _ ≤ 65535 := hslen
          · exact absurd h (by simp)
    · rw [if_neg h0, if_neg hsh] at h
      split at h
      · rename_i levs hb
        have hlt : levs = toks := by
          injection h with h1
          injection h1 with h2 h3
        subst hlt
        exact le_trans (tokeniseFilterBody_levels s levs hb l hl) hslen
      · exact absurd h (by simp)

theorem subsAt_cons_find (n : Subhier) (t : Lvl) (p : List Lvl) (b : Subhier)
    (hf : hashFind n.children t = some b) : subsAt n (t :: p) = subsAt b p := by
  simp [subsAt_cons, hf]

theorem subsAt_cons_none (n : Subhier) (t : Lvl) (p : List Lvl)
    (hf : hashFind n.children t = none) : subsAt n (t :: p) = none := by
  simp [subsAt_cons, hf]

theorem sharedAt_cons_find (n : Subhier) (t : Lvl) (p : List Lvl) (b : Subhier)
    (hf : hashFind n.children t = some b) : sharedAt n (t :: p) = sharedAt b p := by
  simp [sharedAt_cons, hf]

theorem sharedAt_cons_none (n : Subhier) (t : Lvl) (p : List Lvl)
    (hf : hashFind n.children t = none) : sharedAt n (t :: p) = none := by
  simp [sharedAt_cons, hf]

theorem subsAt_withSubs_cons (n : Subhier) (x : List Subleaf) (t : Lvl) (p : List Lvl) :
    subsAt (n.withSubs x) (t :: p) = subsAt n (t :: p) := by
  cases hf : hashFind n.children t with
  | none =>
    rw [subsAt_cons_none _ _ _ (by rw [children_withSubs]; exact hf),
      subsAt_cons_none _ _ _ hf]
  | some b =>
    rw [subsAt_cons_find _ _ _ _ (by rw [children_withSubs]; exact hf),
      subsAt_cons_find _ _ _ _ hf]

theorem sharedAt_withSubs_cons (n : Subhier) (x : List Subleaf) (t : Lvl) (p : List Lvl) :
    sharedAt (n.withSubs x) (t :: p) = sharedAt n (t :: p) := by
  cases hf : hashFind n.children t with
  | none =>
    rw [sharedAt_cons_none _ _ _ (by rw [children_withSubs]; exact hf),
      sharedAt_cons_none _ _ _ hf]
  | some b =>
    rw [sharedAt_cons_find _ _ _ _ (by rw [children_withSubs]; exact hf),
      sharedAt_cons_find _ _ _ _ hf]

theorem subsAt_withShared_cons (n : Subhier) (x : List SharedGroup) (t : Lvl) (p : List Lvl) :
    subsAt (n.withShared x) (t :: p) = subsAt n (t :: p) := by
  cases hf : hashFind n.children t with
  | none =>
    rw [subsAt_cons_none _ _ _ (by rw [children_withShared]; exact hf),
      subsAt_cons_none _ _ _ hf]
  | some b =>
    rw [subsAt_cons_find _ _ _ _ (by rw [children_withShared]; exact hf),
      subsAt_cons_find _ _ _ _ hf]

theorem sharedAt_withShared_cons (n : Subhier) (x : List SharedGroup) (t : Lvl) (p : List Lvl) :
    sharedAt (n.withShared x) (t :: p) = sharedAt n (t :: p) := by
  cases hf : hashFind n.children t with
  | none =>
    rw [sharedAt_cons_none _ _ _ (by rw [children_withShared]; exact hf),
      sharedAt_cons_none _ _ _ hf]
  | some b =>
    rw [sharedAt_cons_find _ _ _ _ (by rw [children_withShared]; exact hf),
      sharedAt_cons_find _ _ _ _ hf]

/-! The in-place update performed by a re-subscribe along an existing
path: `sub__add_context` touches only the terminal node's leaf list. -/

theorem sub__add_context_existing (c : Client) (sb : Subscription) (toks : List Lvl) :
    ∀ (node term : Subhier) (cidx : List (Option Subleaf)),
    c.id.isSome = true →
    descend node toks = some term →
    (∀ l ∈ toks, l.length ≤ 65535) →
    term.subs.countP (leafScanMatch c.id) = 1 →
    (sub__add_context c sb node toks none cidx).1 =
        (if c.protocol = Protocol.mqtt31 ∨ c.protocol = Protocol.mqtt5
          then MOSQ_ERR_SUB_EXISTS else MOSQ_ERR_SUCCESS) ∧
    (sub__add_context c sb node toks none cidx).2.2 = cidx ∧
    (∀ p : List Lvl, subsAt (sub__add_context c sb node toks none cidx).2.1 p =
        if p = toks then some (sub__add_leaf c sb term.subs).2.1 else subsAt node p) ∧
    (∀ p : List Lvl, sharedAt (sub__add_context c sb node toks none cidx).2.1 p =
        sharedAt node p) := by
  induction toks with
  | nil =>
    intro node term cidx hid hdesc hlen hone
    have hnt : node = term := by
      simpa [descend] using hdesc
    subst hnt
    have hany : node.subs.any (leafScanMatch c.id) = true := by
      rw [List.any_eq_true]
      have hpos : 0 < node.subs.countP (leafScanMatch c.id) := by omega
      exact List.countP_pos_iff.mp hpos
    obtain ⟨hrc, hnone⟩ := sub__add_leaf_exists c sb node.subs hany
    have hres : sub__add_context c sb node [] none cidx =
        ((if c.protocol = Protocol.mqtt31 ∨ c.protocol = Protocol.mqtt5
           then MOSQ_ERR_SUB_EXISTS else MOSQ_ERR_SUCCESS),
         node.withSubs (sub__add_leaf c sb node.subs).2.1, cidx) := by
      simp only [sub__add_context, hid, if_true, sub__add_normal, hrc]
      rw [if_neg (by decide : ¬ (MOSQ_ERR_SUB_EXISTS > (0 : Int)))]
      by_cases hp : c.protocol = Protocol.mqtt31 ∨ c.protocol = Protocol.mqtt5 <;>
        simp [hp]
    refine ⟨by rw [hres], by rw [hres], ?_, ?_⟩
    · intro p
      rw [hres]
      cases p with
      | nil => simp [subsAt_nil, subs_withSubs]
      | cons t' p' => simp [subsAt_withSubs_cons]
    · intro p
      rw [hres]
      cases p with
      | nil => simp [sharedAt_nil, shared_withSubs]
      | cons t' p' => simp [sharedAt_withSubs_cons]
  | cons t rest ih =>
    intro node term cidx hid hdesc hlen hone
    have hlt : ¬ (t.length > 65535) := by
      have := hlen t (List.mem_cons_self t rest)
      omega
    have hlen' : ∀ l ∈ rest, l.length ≤ 65535 :=
      fun l hl => hlen l (List.mem_cons_of_mem t hl)
    simp only [descend] at hdesc
    split at hdesc
    · exact absurd hdesc (by simp)
    · rename_i b hf
      obtain ⟨ih1, ih2, ih3, ih4⟩ := ih b term cidx hid hdesc hlen' hone
      have hres : sub__add_context c sb node (t :: rest) none cidx =
          ((sub__add_context c sb b rest none cidx).1,
           node.withChildren (hashReplace node.children t
             (sub__add_context c sb b rest none cidx).2.1),
           (sub__add_context c sb b rest none cidx).2.2) := by
        simp only [sub__add_context]
        rw [if_neg (by simpa using hlt)]
        simp only [hf]
      refine ⟨by rw [hres]; exact ih1, by rw [hres]; exact ih2, ?_, ?_⟩
      · intro p
        rw [hres]
        cases p with
        | nil =>
          simp only [subsAt_nil, subs_withChildren]
          rw [if_neg (by simp)]
        | cons t' p' =>
          by_cases ht' : t' = t
          · subst ht'
            rw [subsAt_cons_find _ _ _ _ (by
                rw [children_withChildren]
                exact hashFind_replace_self node.children t' _ b hf)]
            rw [ih3 p', subsAt_cons_find _ _ _ _ hf]
            by_cases hp' : p' = rest
            · simp [hp']
            · simp [hp']
          · have hfo : hashFind (node.withChildren (hashReplace node.children t
                (sub__add_context c sb b rest none cidx).2.1)).children t' =
                hashFind node.children t' := by
              rw [children_withChildren]
              exact hashFind_replace_other node.children t _ t' ht'
            have hne : ¬ (t' :: p' = t :: rest) := by simp [ht']
            rw [if_neg hne]
            cases hf' : hashFind node.children t' with
            | none =>
              rw [subsAt_cons_none _ _ _ (hfo.trans hf'), subsAt_cons_none _ _ _ hf']
            | some b' =>
              rw [subsAt_cons_find _ _ _ _ (hfo.trans hf'), subsAt_cons_find _ _ _ _ hf']
      · intro p
        rw [hres]
        cases p with
        | nil => simp [sharedAt_nil, shared_withChildren]
        | cons t' p' =>
          by_cases ht' : t' = t
          · subst ht'
            rw [sharedAt_cons_find _ _ _ _ (by
                rw [children_withChildren]
                exact hashFind_replace_self node.children t' _ b hf)]
            rw [ih4 p', sharedAt_cons_find _ _ _ _ hf]
          · have hfo : hashFind (node.withChildren (hashReplace node.children t
                (sub__add_context c sb b rest none cidx).2.1)).children t' =
                hashFind node.children t' := by
              rw [children_withChildren]
              exact hashFind_replace_other node.children t _ t' ht'
            cases hf' : hashFind node.children t' with
            | none =>
              rw [sharedAt_cons_none _ _ _ (hfo.trans hf'), sharedAt_cons_none _ _ _ hf']
            | some b' =>
              rw [sharedAt_cons_find _ _ _ _ (hfo.trans hf'), sharedAt_cons_find _ _ _ _ hf']

theorem sub__add_context_existing_shared (c : Client) (sb : Subscription) (g : Lvl)
    (gls : List Subleaf) (toks : List Lvl) :
    ∀ (node term : Subhier) (cidx : List (Option Subleaf)),
    c.id.isSome = true →
    descend node toks = some term →
    (∀ l ∈ toks, l.length ≤ 65535) →
    hashFind term.shared g = some gls →
    gls.countP (leafScanMatch c.id) = 1 →
    (sub__add_context c sb node toks (some g) cidx).1 =
        (if c.protocol = Protocol.mqtt31 ∨ c.protocol = Protocol.mqtt5
          then MOSQ_ERR_SUB_EXISTS else MOSQ_ERR_SUCCESS) ∧
    (sub__add_context c sb node toks (some g) cidx).2.2 = cidx ∧
    (∀ p : List Lvl, subsAt (sub__add_context c sb node toks (some g) cidx).2.1 p =
        subsAt node p) ∧
    (∀ p : List Lvl, sharedAt (sub__add_context c sb node toks (some g) cidx).2.1 p =
        if p = toks then some (hashReplace term.shared g (sub__add_leaf c sb gls).2.1)
        else sharedAt node p) := by
  induction toks with
  | nil =>
    intro node term cidx hid hdesc hlen hfg hone
    have hnt : node = term := by
      simpa [descend] using hdesc
    subst hnt
    have hany : gls.any (leafScanMatch c.id) = true := by
      rw [List.any_eq_true]
      have hpos : 0 < gls.countP (leafScanMatch c.id) := by omega
      exact List.countP_pos_iff.mp hpos
    obtain ⟨hrc, hnone⟩ := sub__add_leaf_exists c sb gls hany
    have hres : sub__add_context c sb node [] (some g) cidx =
        ((if c.protocol = Protocol.mqtt31 ∨ c.protocol = Protocol.mqtt5
           then MOSQ_ERR_SUB_EXISTS else MOSQ_ERR_SUCCESS),
         node.withShared (hashReplace node.shared g (sub__add_leaf c sb gls).2.1),
         cidx) := by
      simp only [sub__add_context, hid, if_true, sub__add_shared, hfg, hrc]
      rw [if_neg (by decide : ¬ (MOSQ_ERR_SUB_EXISTS > (0 : Int)))]
      by_cases hp : c.protocol = Protocol.mqtt31 ∨ c.protocol = Protocol.mqtt5 <;>
        simp [hp]
    refine ⟨by rw [hres], by rw [hres], ?_, ?_⟩
    · intro p
      rw [hres]
      cases p with
      | nil => simp [subsAt_nil, subs_withShared]
      | cons t' p' => simp [subsAt_withShared_cons]
    · intro p
      rw [hres]
      cases p with
      | nil => simp [sharedAt_nil, shared_withShared]
      | cons t' p' =>
        rw [if_neg (show ¬(t' :: p' = ([] : List Lvl)) by simp)]
        simp [sharedAt_withShared_cons]
  | cons t rest ih =>
    intro node term cidx hid hdesc hlen hfg hone
    have hlt : ¬ (t.length > 65535) := by
      have := hlen t (List.mem_cons_self t rest)
      omega
    have hlen' : ∀ l ∈ rest, l.length ≤ 65535 :=
      fun l hl => hlen l (List.mem_cons_of_mem t hl)
    simp only [descend] at hdesc
    split at hdesc
    · exact absurd hdesc (by simp)
    · rename_i b hf
      obtain ⟨ih1, ih2, ih3, ih4⟩ := ih b term cidx hid hdesc hlen' hfg hone
      have hres : sub__add_context c sb node (t :: rest) (some g) cidx =
          ((sub__add_context c sb b rest (some g) cidx).1,
           node.withChildren (hashReplace node.children t
             (sub__add_context c sb b rest (some g) cidx).2.1),
           (sub__add_context c sb b rest (some g) cidx).2.2) := by
        simp only [sub__add_context]
        rw [if_neg (by simpa using hlt)]
        simp only [hf]
      refine ⟨by rw [hres]; exact ih1, by rw [hres]; exact ih2, ?_, ?_⟩
      · intro p
        rw [hres]
        cases p with
        | nil => simp [subsAt_nil, subs_withChildren]
        | cons t' p' =>
          by_cases ht' : t' = t
          · subst ht'
            rw [subsAt_cons_find _ _ _ _ (by
                rw [children_withChildren]
                exact hashFind_replace_self node.children t' _ b hf)]
            rw [ih3 p', subsAt_cons_find _ _ _ _ hf]
          · have hfo : hashFind (node.withChildren (hashReplace node.children t
                (sub__add_context c sb b rest (some g) cidx).2.1)).children t' =
                hashFind node.children t' := by
              rw [children_withChildren]
              exact hashFind_replace_other node.children t _ t' ht'
            cases hf' : hashFind node.children t' with
            | none =>
              rw [subsAt_cons_none _ _ _ (hfo.trans hf'), subsAt_cons_none _ _ _ hf']
            | some b' =>
              rw [subsAt_cons_find _ _ _ _ (hfo.trans hf'), subsAt_cons_find _ _ _ _ hf']
      · intro p
        rw [hres]
        cases p with
        | nil =>
          simp only [sharedAt_nil, shared_withChildren]
          rw [if_neg (by simp)]
        | cons t' p' =>
          by_cases ht' : t' = t
          · subst ht'
            rw [sharedAt_cons_find _ _ _ _ (by
                rw [children_withChildren]
                exact hashFind_replace_self node.children t' _ b hf)]
            rw [ih4 p', sharedAt_cons_find _ _ _ _ hf]
            by_cases hp' : p' = rest
            · simp [hp']
            · simp [hp']
          · have hfo : hashFind (node.withChildren (hashReplace node.children t
                (sub__add_context c sb b rest (some g) cidx).2.1)).children t' =
                hashFind node.children t' := by
              rw [children_withChildren]
              exact hashFind_replace_other node.children t _ t' ht'
            have hne : ¬ (t' :: p' = t :: rest) := by simp [ht']
            rw [if_neg hne]
            cases hf' : hashFind node.children t' with
            | none =>
              rw [sharedAt_cons_none _ _ _ (hfo.trans hf'), sharedAt_cons_none _ _ _ hf']
            | some b' =>
              rw [sharedAt_cons_find _ _ _ _ (hfo.trans hf'), sharedAt_cons_find _ _ _ _ hf']

theorem subsAtPath_nil (S : RootHash) : subsAtPath S [] = none := rfl

theorem sharedAtPath_nil (S : RootHash) : sharedAtPath S [] = none := rfl

theorem subsAtPath_cons_find (S : RootHash) (k : Lvl) (p : List Lvl) (rt : Subhier)
    (hf : hashFind S k = some rt) : subsAtPath S (k :: p) = subsAt rt (k :: p) := by
  simp [subsAtPath, nodeAtPath, subsAt, hf]

theorem subsAtPath_cons_none (S : RootHash) (k : Lvl) (p : List Lvl)
    (hf : hashFind S k = none) : subsAtPath S (k :: p) = none := by
  simp [subsAtPath, nodeAtPath, hf]

theorem sharedAtPath_cons_find (S : RootHash) (k : Lvl) (p : List Lvl) (rt : Subhier)
    (hf : hashFind S k = some rt) : sharedAtPath S (k :: p) = sharedAt rt (k :: p) := by
  simp [sharedAtPath, nodeAtPath, sharedAt, hf]

theorem sharedAtPath_cons_none (S : RootHash) (k : Lvl) (p : List Lvl)
    (hf : hashFind S k = none) : sharedAtPath S (k :: p) = none := by
  simp [sharedAtPath, nodeAtPath, hf]

/-- C6: a second `sub_add` by a client whose leaf for the same filter
already sits at the filter's terminal node - in the node's normal leaf
list for a plain filter, in the named group's leaf list for a `$share`
filter - updates that leaf's options and subscription identifier in
place: the per-client index is untouched (no duplicate reference),
every node of the trie other than the terminal one keeps its leaf list
and shared map (for a `$share` filter even the terminal's normal list
and its other groups are kept), the updated leaf list keeps its length,
still holds exactly one leaf of this client, and that leaf carries the
new options and identifier. -/
theorem c6_idempotent_resubscribe (c : Client) (sb : Subscription) (S : RootHash)
    (cidx : List (Option Subleaf)) (t0 : Lvl) (trest : List Lvl) (term : Subhier)
    (hid : c.id.isSome = true)
    (hnode : nodeAtPath S (t0 :: trest) = some term) :
    (tokeniseSub sb.topic_filter = some (t0 :: trest, none) →
     term.subs.countP (leafScanMatch c.id) = 1 →
     ((sub__add c sb S cidx).2.2 = cidx) ∧
     ((sub__add c sb S cidx).1 =
       (if c.protocol = Protocol.mqtt31 ∨ c.protocol = Protocol.mqtt5
         then MOSQ_ERR_SUB_EXISTS else MOSQ_ERR_SUCCESS)) ∧
     (∀ p : List Lvl, subsAtPath (sub__add c sb S cidx).2.1 p =
       if p = t0 :: trest then some (sub__add_leaf c sb term.subs).2.1
       else subsAtPath S p) ∧
     (∀ p : List Lvl, sharedAtPath (sub__add c sb S cidx).2.1 p = sharedAtPath S p) ∧
     ((sub__add_leaf c sb term.subs).2.1.length = term.subs.length) ∧
     ((sub__add_leaf c sb term.subs).2.1.countP (leafScanMatch c.id) = 1) ∧
     (∀ l ∈ (sub__add_leaf c sb term.subs).2.1, leafScanMatch c.id l = true →
       l.subscription_options = sb.options ∧ l.identifier = sb.identifier)) ∧
    (∀ (g : Lvl) (gls : List Subleaf),
     tokeniseSub sb.topic_filter = some (t0 :: trest, some g) →
     hashFind term.shared g = some gls →
     gls.countP (leafScanMatch c.id) = 1 →
     ((sub__add c sb S cidx).2.2 = cidx) ∧
     ((sub__add c sb S cidx).1 =
       (if c.protocol = Protocol.mqtt31 ∨ c.protocol = Protocol.mqtt5
         then MOSQ_ERR_SUB_EXISTS else MOSQ_ERR_SUCCESS)) ∧
     (∀ p : List Lvl, subsAtPath (sub__add c sb S cidx).2.1 p = subsAtPath S p) ∧
     (∀ p : List Lvl, sharedAtPath (sub__add c sb S cidx).2.1 p =
       if p = t0 :: trest
         then some (hashReplace term.shared g (sub__add_leaf c sb gls).2.1)
         else sharedAtPath S p) ∧
     (hashFind (hashReplace term.shared g (sub__add_leaf c sb gls).2.1) g =
       some (sub__add_leaf c sb gls).2.1) ∧
     (∀ g2, g2 ≠ g →
       hashFind (hashReplace term.shared g (sub__add_leaf c sb gls).2.1) g2 =
         hashFind term.shared g2) ∧
     ((sub__add_leaf c sb gls).2.1.length = gls.length) ∧
     ((sub__add_leaf c sb gls).2.1.countP (leafScanMatch c.id) = 1) ∧
     (∀ l ∈ (sub__add_leaf c sb gls).2.1, leafScanMatch c.id l = true →
       l.subscription_options = sb.options ∧ l.identifier = sb.identifier)) := by
  constructor
  · intro htok hone
    have hlen := tokeniseSub_levels sb.topic_filter (t0 :: trest) none htok
    obtain ⟨hu1, hu2, hu3⟩ := sub__add_leaf_unique_update c sb term.subs hone
    simp only [nodeAtPath] at hnode
    split at hnode
    · exact absurd hnode (by simp)
    · rename_i rt hfS
      obtain ⟨hc1, hc2, hc3, hc4⟩ :=
        sub__add_context_existing c sb (t0 :: trest) rt term cidx hid hnode hlen hone
      have ht0len : ¬ (t0.length > 65535) := by
        have := hlen t0 (List.mem_cons_self t0 trest)
        omega
      have hres : sub__add c sb S cidx =
          ((sub__add_context c sb rt (t0 :: trest) none cidx).1,
           hashReplace S t0 (sub__add_context c sb rt (t0 :: trest) none cidx).2.1,
           (sub__add_context c sb rt (t0 :: trest) none cidx).2.2) := by
        simp only [sub__add, htok]
        rw [if_neg (by simpa using ht0len)]
        simp only [hfS]
      refine ⟨by rw [hres]; exact hc2, by rw [hres]; exact hc1, ?_, ?_, hu1, hu2, hu3⟩
      · intro p
        rw [hres]
        cases p with
        | nil =>
          rw [subsAtPath_nil, subsAtPath_nil, if_neg (by simp)]
        | cons k p' =>
          by_cases hk : k = t0
          · subst hk
            rw [subsAtPath_cons_find _ _ _ _ (hashFind_replace_self S k _ rt hfS)]
            rw [hc3 (k :: p')]
            by_cases hp : k :: p' = k :: trest
            · simp [hp]
            · rw [if_neg hp, if_neg hp, subsAtPath_cons_find _ _ _ _ hfS]
          · have hfo := hashFind_replace_other S t0
              (sub__add_context c sb rt (t0 :: trest) none cidx).2.1 k hk
            have hne : ¬ (k :: p' = t0 :: trest) := by simp [hk]
            rw [if_neg hne]
            cases hf' : hashFind S k with
            | none =>
              rw [subsAtPath_cons_none _ _ _ (hfo.trans hf'), subsAtPath_cons_none _ _ _ hf']
            | some rt' =>
              rw [subsAtPath_cons_find _ _ _ _ (hfo.trans hf'),
                subsAtPath_cons_find _ _ _ _ hf']
      · intro p
        rw [hres]
        cases p with
        | nil =>
          rw [sharedAtPath_nil, sharedAtPath_nil]
        | cons k p' =>
          by_cases hk : k = t0
          · subst hk
            rw [sharedAtPath_cons_find _ _ _ _ (hashFind_replace_self S k _ rt hfS)]
            rw [hc4 (k :: p'), sharedAtPath_cons_find _ _ _ _ hfS]
          · have hfo := hashFind_replace_other S t0
              (sub__add_context c sb rt (t0 :: trest) none cidx).2.1 k hk
            cases hf' : hashFind S k with
            | none =>
              rw [sharedAtPath_cons_none _ _ _ (hfo.trans hf'),
                sharedAtPath_cons_none _ _ _ hf']
            | some rt' =>
              rw [sharedAtPath_cons_find _ _ _ _ (hfo.trans hf'),
                sharedAtPath_cons_find _ _ _ _ hf']
  · intro g gls htok hfg hone
    have hlen := tokeniseSub_levels sb.topic_filter (t0 :: trest) (some g) htok
    obtain ⟨hu1, hu2, hu3⟩ := sub__add_leaf_unique_update c sb gls hone
    simp only [nodeAtPath] at hnode
    split at hnode
    · exact absurd hnode (by simp)
    · rename_i rt hfS
      obtain ⟨hc1, hc2, hc3, hc4⟩ :=
        sub__add_context_existing_shared c sb g gls (t0 :: trest) rt term cidx hid
          hnode hlen hfg hone
      have ht0len : ¬ (t0.length > 65535) := by
        have := hlen t0 (List.mem_cons_self t0 trest)
        omega
      have hres : sub__add c sb S cidx =
          ((sub__add_context c sb rt (t0 :: trest) (some g) cidx).1,
           hashReplace S t0 (sub__add_context c sb rt (t0 :: trest) (some g) cidx).2.1,
           (sub__add_context c sb rt (t0 :: trest) (some g) cidx).2.2) := by
        simp only [sub__add, htok]
        rw [if_neg (by simpa using ht0len)]
        simp only [hfS]
      refine ⟨by rw [hres]; exact hc2, by rw [hres]; exact hc1, ?_, ?_,
        hashFind_replace_self term.shared g _ gls hfg,
        fun g2 hg2 => hashFind_replace_other term.shared g _ g2 hg2, hu1, hu2, hu3⟩
      · intro p
        rw [hres]
        cases p with
        | nil =>
          rw [subsAtPath_nil, subsAtPath_nil]
        | cons k p' =>
          by_cases hk : k = t0
          · subst hk
            rw [subsAtPath_cons_find _ _ _ _ (hashFind_replace_self S k _ rt hfS)]
            rw [hc3 (k :: p'), subsAtPath_cons_find _ _ _ _ hfS]
          · have hfo := hashFind_replace_other S t0
              (sub__add_context c sb rt (t0 :: trest) (some g) cidx).2.1 k hk
            cases hf' : hashFind S k with
            | none =>
              rw [subsAtPath_cons_none _ _ _ (hfo.trans hf'), subsAtPath_cons_none _ _ _ hf']
            | some rt' =>
              rw [subsAtPath_cons_find _ _ _ _ (hfo.trans hf'),
                subsAtPath_cons_find _ _ _ _ hf']
      · intro p
        rw [hres]
        cases p with
        | nil =>
          rw [sharedAtPath_nil, sharedAtPath_nil, if_neg (by simp)]
        | cons k p' =>
          by_cases hk : k = t0
          · subst hk
            rw [sharedAtPath_cons_find _ _ _ _ (hashFind_replace_self S k _ rt hfS)]
            rw [hc4 (k :: p')]
            by_cases hp : k :: p' = k :: trest
            · simp [hp]
            · rw [if_neg hp, if_neg hp, sharedAtPath_cons_find _ _ _ _ hfS]
          · have hfo := hashFind_replace_other S t0
              (sub__add_context c sb rt (t0 :: trest) (some g) cidx).2.1 k hk
            have hne : ¬ (k :: p' = t0 :: trest) := by simp [hk]
            rw [if_neg hne]
            cases hf' : hashFind S k with
            | none =>
              rw [sharedAtPath_cons_none _ _ _ (hfo.trans hf'),
                sharedAtPath_cons_none _ _ _ hf']
            | some rt' =>
              rw [sharedAtPath_cons_find _ _ _ _ (hfo.trans hf'),
                sharedAtPath_cons_find _ _ _ _ hf']

/-- C6 witness: a mqtt5 client re-subscribes to `a` with new options 5
and identifier 9, and another one re-subscribes to `$share/g/a`; in
both cases the index stays empty, the call reports
`MOSQ_ERR_SUB_EXISTS`, and the terminal leaf list (normal, then of
group `g`) is the in-place update. -/
theorem c6_witness :
    ((sub__add ⟨1, some ['c'], Protocol.mqtt5⟩ ⟨"a".toList, 9, 5⟩
        [([], Subhier.mk [] [([], Subhier.mk []
          [(['a'], Subhier.mk ['a'] [] [⟨1, some ['c'], 0, 0, "a".toList⟩] [])] [] [])] [] [])]
        []).2.2 = []) ∧
    ((sub__add ⟨1, some ['c'], Protocol.mqtt5⟩ ⟨"a".toList, 9, 5⟩
        [([], Subhier.mk [] [([], Subhier.mk []
          [(['a'], Subhier.mk ['a'] [] [⟨1, some ['c'], 0, 0, "a".toList⟩] [])] [] [])] [] [])]
        []).1 =
      (if (⟨1, some ['c'], Protocol.mqtt5⟩ : Client).protocol = Protocol.mqtt31 ∨
          (⟨1, some ['c'], Protocol.mqtt5⟩ : Client).protocol = Protocol.mqtt5
        then MOSQ_ERR_SUB_EXISTS else MOSQ_ERR_SUCCESS)) ∧
    (subsAtPath (sub__add ⟨1, some ['c'], Protocol.mqtt5⟩ ⟨"a".toList, 9, 5⟩
        [([], Subhier.mk [] [([], Subhier.mk []
          [(['a'], Subhier.mk ['a'] [] [⟨1, some ['c'], 0, 0, "a".toList⟩] [])] [] [])] [] [])]
        []).2.1 ([] :: [['a']]) =
      if ([] :: [['a']] : List Lvl) = [] :: [['a']]
        then some (sub__add_leaf ⟨1, some ['c'], Protocol.mqtt5⟩ ⟨"a".toList, 9, 5⟩
          [⟨1, some ['c'], 0, 0, "a".toList⟩]).2.1
        else subsAtPath
          [([], Subhier.mk [] [([], Subhier.mk []
            [(['a'], Subhier.mk ['a'] [] [⟨1, some ['c'], 0, 0, "a".toList⟩] [])] [] [])] [] [])]
          ([] :: [['a']])) ∧
    ((sub__add_leaf ⟨1, some ['c'], Protocol.mqtt5⟩ ⟨"a".toList, 9, 5⟩
        [⟨1, some ['c'], 0, 0, "a".toList⟩]).2.1.length =
      ([⟨1, some ['c'], 0, 0, "a".toList⟩] : List Subleaf).length) ∧
    ((sub__add_leaf ⟨1, some ['c'], Protocol.mqtt5⟩ ⟨"a".toList, 9, 5⟩
        [⟨1, some ['c'], 0, 0, "a".toList⟩]).2.1.countP
        (leafScanMatch (⟨1, some ['c'], Protocol.mqtt5⟩ : Client).id) = 1) ∧
    ((sub__add ⟨2, some ['d'], Protocol.mqtt5⟩ ⟨"$share/g/a".toList, 9, 5⟩
        [([], Subhier.mk [] [([], Subhier.mk []
          [(['a'], Subhier.mk ['a'] [] []
            [(['g'], [⟨2, some ['d'], 0, 0, "$share/g/a".toList⟩])])] [] [])] [] [])]
        []).2.2 = []) ∧
    (sharedAtPath (sub__add ⟨2, some ['d'], Protocol.mqtt5⟩ ⟨"$share/g/a".toList, 9, 5⟩
        [([], Subhier.mk [] [([], Subhier.mk []
          [(['a'], Subhier.mk ['a'] [] []
            [(['g'], [⟨2, some ['d'], 0, 0, "$share/g/a".toList⟩])])] [] [])] [] [])]
        []).2.1 ([] :: [['a']]) =
      if ([] :: [['a']] : List Lvl) = [] :: [['a']]
        then some (hashReplace
          (Subhier.mk ['a'] [] []
            [(['g'], [⟨2, some ['d'], 0, 0, "$share/g/a".toList⟩])]).shared ['g']
          (sub__add_leaf ⟨2, some ['d'], Protocol.mqtt5⟩ ⟨"$share/g/a".toList, 9, 5⟩
            [⟨2, some ['d'], 0, 0, "$share/g/a".toList⟩]).2.1)
        else sharedAtPath
          [([], Subhier.mk [] [([], Subhier.mk []
            [(['a'], Subhier.mk ['a'] [] []
              [(['g'], [⟨2, some ['d'], 0, 0, "$share/g/a".toList⟩])])] [] [])] [] [])]
          ([] :: [['a']])) ∧
    (hashFind (hashReplace
        (Subhier.mk ['a'] [] []
          [(['g'], [⟨2, some ['d'], 0, 0, "$share/g/a".toList⟩])]).shared ['g']
        (sub__add_leaf ⟨2, some ['d'], Protocol.mqtt5⟩ ⟨"$share/g/a".toList, 9, 5⟩
          [⟨2, some ['d'], 0, 0, "$share/g/a".toList⟩]).2.1) ['g'] =
      some (sub__add_leaf ⟨2, some ['d'], Protocol.mqtt5⟩ ⟨"$share/g/a".toList, 9, 5⟩
        [⟨2, some ['d'], 0, 0, "$share/g/a".toList⟩]).2.1) ∧
    ((sub__add_leaf ⟨2, some ['d'], Protocol.mqtt5⟩ ⟨"$share/g/a".toList, 9, 5⟩
        [⟨2, some ['d'], 0, 0, "$share/g/a".toList⟩]).2.1.countP
        (leafScanMatch (⟨2, some ['d'], Protocol.mqtt5⟩ : Client).id) = 1) :=
  have H := (c6_idempotent_resubscribe ⟨1, some ['c'], Protocol.mqtt5⟩ ⟨"a".toList, 9, 5⟩
    [([], Subhier.mk [] [([], Subhier.mk []
      [(['a'], Subhier.mk ['a'] [] [⟨1, some ['c'], 0, 0, "a".toList⟩] [])] [] [])] [] [])]
    [] [] [['a']] (Subhier.mk ['a'] [] [⟨1, some ['c'], 0, 0, "a".toList⟩] [])
    (by decide) rfl).1 (by decide) (by decide)
  have H2 := (c6_idempotent_resubscribe ⟨2, some ['d'], Protocol.mqtt5⟩
    ⟨"$share/g/a".toList, 9, 5⟩
    [([], Subhier.mk [] [([], Subhier.mk []
      [(['a'], Subhier.mk ['a'] [] []
        [(['g'], [⟨2, some ['d'], 0, 0, "$share/g/a".toList⟩])])] [] [])] [] [])]
    [] [] [['a']]
    (Subhier.mk ['a'] [] [] [(['g'], [⟨2, some ['d'], 0, 0, "$share/g/a".toList⟩])])
    (by decide) rfl).2 ['g'] [⟨2, some ['d'], 0, 0, "$share/g/a".toList⟩]
    (by decide) rfl (by decide)
  ⟨H.1, H.2.1, H.2.2.1 ([] :: [['a']]), H.2.2.2.2.1, H.2.2.2.2.2.1,
   H2.1, H2.2.2.2.1 ([] :: [['a']]), H2.2.2.2.2.1, H2.2.2.2.2.2.2.2.1⟩

/-! System-topic guard: a publish rooted at a `$` level reads only its
own root-hash entry, and a non-`$` filter writes only the empty-level
root entry. -/

theorem hashFind_append_single {α : Type} (S : List (Lvl × α)) (k0 : Lvl) (v0 : α)
    (k : Lvl) (h : k ≠ k0) : hashFind (S ++ [(k0, v0)]) k = hashFind S k := by
  induction S with
  | nil =>
    have : ¬ (k0 = k) := fun he => h he.symm
    simp [hashFind, this]
  | cons e rest ih =>
    obtain ⟨k', v'⟩ := e
    by_cases hk : k' = k
    · simp [hashFind, hk]
    · simp [hashFind, hk, ih]

theorem listStartsWith_shareMark_head (s : List Char)
    (h : listStartsWith shareMark s = true) : s.head? = some '$' := by
  cases s with
  | nil => simp [listStartsWith, shareMark] at h
  | cons c cs =>
    simp only [shareMark, listStartsWith, Bool.and_eq_true, decide_eq_true_eq] at h
    simp [← h.1]

theorem tokeniseFilterBody_nondollar (s : List Char) (toks : List Lvl)
    (hd : s.head? ≠ some '$') (h : tokeniseFilterBody s = some toks) :
    ∃ rest, toks = [] :: rest := by
  unfold tokeniseFilterBody at h
  by_cases he : s.isEmpty
  · simp [he] at h
  · by_cases hok : levelsOk (splitLevels s)
    · rw [if_neg he, if_pos hok] at h
      injection h with h
      rw [if_neg hd] at h
      exact ⟨splitLevels s, h.symm⟩
    · simp [he, hok] at h

theorem tokeniseSub_nondollar (s : List Char) (toks : List Lvl) (shn : Option Lvl)
    (hd : s.head? ≠ some '$') (h : tokeniseSub s = some (toks, shn)) :
    ∃ rest, toks = [] :: rest := by
  unfold tokeniseSub at h
  by_cases h0 : s.isEmpty || s.length > 65535
  · simp [h0] at h
  · by_cases hsh : listStartsWith shareMark s
    · exact absurd (listStartsWith_shareMark_head s hsh) hd
    · rw [if_neg h0, if_neg hsh] at h
      split at h
      · rename_i levs hb
        have hlt : levs = toks := by
          injection h with h1
          injection h1 with h2 h3
        subst hlt
        exact tokeniseFilterBody_nondollar s levs hd hb
      · exact absurd h (by simp)

theorem splitLevels_dollar_head (tl : List Char) :
    ∃ l0 ls, splitLevels ('$' :: tl) = ('$' :: l0) :: ls := by
  simp only [splitLevels, show ¬('$' = '/') from by decide, if_false]
  cases hs : splitLevels tl with
  | nil => exact ⟨[], [], rfl⟩
  | cons l0 ls => exact ⟨l0, ls, rfl⟩

theorem tokenisePub_dollar (topic : List Char) (split : List Lvl)
    (hd : topic.head? = some '$') (h : tokenisePub topic = some split) :
    ∃ l0 ls, split = ('$' :: l0) :: ls := by
  unfold tokenisePub at h
  by_cases h0 : topic.isEmpty || topic.length > 65535
  · simp [h0] at h
  · by_cases hw : topic.contains '+' || topic.contains '#'
    · rw [if_neg h0, if_pos hw] at h
      exact absurd h (by simp)
    · rw [if_neg h0, if_neg hw] at h
      injection h with h
      rw [if_pos hd] at h
      cases topic with
      | nil => simp at hd
      | cons c tl =>
        have hc : c = '$' := by
          simp only [List.head?_cons, Option.some_inj] at hd
          exact hd
        subst hc
        obtain ⟨l0, ls, he⟩ := splitLevels_dollar_head tl
        exact ⟨l0, ls, by rw [← h, he]⟩

theorem sub__add_nondollar_root (c : Client) (sb : Subscription) (S : RootHash)
    (cidx : List (Option Subleaf)) (k : Lvl)
    (hd : sb.topic_filter.head? ≠ some '$') (hk : k ≠ []) :
    hashFind (sub__add c sb S cidx).2.1 k = hashFind S k := by
  cases htok : tokeniseSub sb.topic_filter with
  | none => simp [sub__add, htok]
  | some pr =>
    obtain ⟨toks, shn⟩ := pr
    obtain ⟨rest, hrest⟩ := tokeniseSub_nondollar sb.topic_filter toks shn hd htok
    subst hrest
    simp only [sub__add, htok]
    rw [if_neg (by simp)]
    cases hf : hashFind S ([] : Lvl) with
    | some rt =>
      simp only [hf]
      exact hashFind_replace_other S [] _ k hk
    | none =>
      simp only [hf]
      rw [hashFind_replace_other _ [] _ k hk]
      exact hashFind_append_single S [] _ k hk

/-- C8: a subscription to `#` (or any filter not rooted at a `$` level)
never receives a publish to a topic whose first level begins with `$`:
concretely, after subscribing C1 to `#`, a publish to
`$SYS/broker/uptime` reaches no one, while after additionally
subscribing C1 to `$SYS/#` it reaches C1; and in general, adding any
subscription whose filter does not begin with `$` changes neither the
return code nor the delivery trace of any publish whose topic begins
with `$`. -/
theorem c8_system_topic_guard :
    ((sub__messages_queue envAllOk
        (sub__add ⟨1, some ['c'], Protocol.mqtt5⟩ ⟨"#".toList, 0, 0⟩ [] []).2.1
        (some ['p']) "$SYS/broker/uptime".toList 1 false).2.1 = []) ∧
    ((sub__messages_queue envAllOk
        (sub__add ⟨1, some ['c'], Protocol.mqtt5⟩ ⟨"$SYS/#".toList, 0, 0⟩
          (sub__add ⟨1, some ['c'], Protocol.mqtt5⟩ ⟨"#".toList, 0, 0⟩ [] []).2.1
          (sub__add ⟨1, some ['c'], Protocol.mqtt5⟩ ⟨"#".toList, 0, 0⟩ [] []).2.2).2.1
        (some ['p']) "$SYS/broker/uptime".toList 1 false).2.1.map EnqueueCall.cid = [1]) ∧
    (∀ (env : Env) (c : Client) (sb : Subscription) (S : RootHash)
        (cidx : List (Option Subleaf)) (src : Option Lvl) (topic : List Char)
        (q : Nat) (r : Bool),
      topic.head? = some '$' →
      sb.topic_filter.head? ≠ some '$' →
      (sub__messages_queue env (sub__add c sb S cidx).2.1 src topic q r).1 =
        (sub__messages_queue env S src topic q r).1 ∧
      (sub__messages_queue env (sub__add c sb S cidx).2.1 src topic q r).2.1 =
        (sub__messages_queue env S src topic q r).2.1) := by
  refine ⟨by decide, by decide, ?_⟩
  intro env c sb S cidx src topic q r htop hfil
  cases htp : tokenisePub topic with
  | none => simp [sub__messages_queue, htp]
  | some split =>
    obtain ⟨l0, ls, hsplit⟩ := tokenisePub_dollar topic split htop htp
    subst hsplit
    have hfind : hashFind (sub__add c sb S cidx).2.1 ('$' :: l0) = hashFind S ('$' :: l0) :=
      sub__add_nondollar_root c sb S cidx ('$' :: l0) hfil (by simp)
    cases hf : hashFind S ('$' :: l0) with
    | none => simp [sub__messages_queue, htp, hfind, hf]
    | some rt => simp [sub__messages_queue, htp, hfind, hf]

/-- C8 witness: the general part of the theorem at a concrete instance:
adding a `#` subscription to the empty engine does not change what a
publish to `$SYS/x` returns or delivers. -/
theorem c8_witness :
    ((sub__messages_queue envAllOk
        (sub__add ⟨2, some ['d'], Protocol.mqtt5⟩ ⟨"#".toList, 0, 0⟩ [] []).2.1
        (some ['p']) "$SYS/x".toList 0 false).1 =
      (sub__messages_queue envAllOk [] (some ['p']) "$SYS/x".toList 0 false).1) ∧
    ((sub__messages_queue envAllOk
        (sub__add ⟨2, some ['d'], Protocol.mqtt5⟩ ⟨"#".toList, 0, 0⟩ [] []).2.1
        (some ['p']) "$SYS/x".toList 0 false).2.1 =
      (sub__messages_queue envAllOk [] (some ['p']) "$SYS/x".toList 0 false).2.1) :=
  c8_system_topic_guard.2.2 envAllOk ⟨2, some ['d'], Protocol.mqtt5⟩ ⟨"#".toList, 0, 0⟩
    [] [] (some ['p']) "$SYS/x".toList 0 false (by decide) (by decide)

/-! Lemmas about `sub__remove_recurse`. -/

theorem removeLeafScan_isSome (cid : Nat) (ls : List Subleaf) :
    (removeLeafScan cid ls).isSome = ls.any (fun l => l.clientCid = cid) := by
  induction ls with
  | nil => simp [removeLeafScan]
  | cons l rest ih =>
    by_cases h : l.clientCid = cid
    · simp [removeLeafScan, h]
    · rw [List.any_cons, ← ih]
      cases hs : removeLeafScan cid rest <;> simp [removeLeafScan, h, hs]

theorem hasNormalLeafAt_cons (c : Client) (node : Subhier) (t : Lvl) (rest : List Lvl) :
    hasNormalLeafAt c node (t :: rest) =
      match hashFind node.children t with
      | none => false
      | some b => hasNormalLeafAt c b rest := by
  unfold hasNormalLeafAt
  cases hf : hashFind node.children t with
  | none => simp [descend, hf]
  | some b => simp [descend, hf]

theorem sub__remove_recurse_rc_cons (c : Client) (node : Subhier) (t : Lvl)
    (rest : List Lvl) (reason : Nat) (cidx : List (Option Subleaf)) (shn : Option Lvl) :
    (sub__remove_recurse c node (t :: rest) reason cidx shn).1 = MOSQ_ERR_SUCCESS := by
  simp only [sub__remove_recurse]
  cases hf : hashFind node.children t <;> simp [hf]

theorem sub__remove_recurse_reason (c : Client) (toks : List Lvl) (node : Subhier)
    (reason : Nat) (cidx : List (Option Subleaf)) :
    (sub__remove_recurse c node toks reason cidx none).2.2.1 =
      if hasNormalLeafAt c node toks then 0 else reason := by
  induction toks generalizing node reason cidx with
  | nil =>
    have hiso := removeLeafScan_isSome c.cid node.subs
    simp only [sub__remove_recurse, sub__remove_normal, hasNormalLeafAt, descend]
    cases hs : removeLeafScan c.cid node.subs with
    | none =>
      rw [hs] at hiso
      simp only [Option.isSome_none] at hiso
      simp [← hiso]
    | some p =>
      rw [hs] at hiso
      simp only [Option.isSome_some] at hiso
      simp [← hiso]
  | cons t rest ih =>
    rw [hasNormalLeafAt_cons]
    simp only [sub__remove_recurse]
    cases hf : hashFind node.children t with
    | none => simp [hf]
    | some branch => simp [hf, ih]

theorem hasSharedLeafAt_cons (c : Client) (g : Lvl) (node : Subhier) (t : Lvl)
    (rest : List Lvl) :
    hasSharedLeafAt c g node (t :: rest) =
      match hashFind node.children t with
      | none => false
      | some b => hasSharedLeafAt c g b rest := by
  unfold hasSharedLeafAt
  cases hf : hashFind node.children t with
  | none => simp [descend, hf]
  | some b => simp [descend, hf]

theorem sub__remove_recurse_reason_shared (c : Client) (g : Lvl) (toks : List Lvl)
    (node : Subhier) (reason : Nat) (cidx : List (Option Subleaf)) :
    (sub__remove_recurse c node toks reason cidx (some g)).2.2.1 =
      if hasSharedLeafAt c g node toks then 0 else reason := by
  induction toks generalizing node reason cidx with
  | nil =>
    cases hfg : hashFind node.shared g with
    | none =>
      simp [sub__remove_recurse, sub__remove_shared, hasSharedLeafAt, descend, hfg]
    | some gls =>
      have hiso := removeLeafScan_isSome c.cid gls
      cases hs : removeLeafScan c.cid gls with
      | none =>
        rw [hs] at hiso
        simp only [Option.isSome_none] at hiso
        simp [sub__remove_recurse, sub__remove_shared, hasSharedLeafAt, descend,
          hfg, hs, ← hiso]
      | some p =>
        obtain ⟨gls2, lf⟩ := p
        rw [hs] at hiso
        simp only [Option.isSome_some] at hiso
        simp [sub__remove_recurse, sub__remove_shared, hasSharedLeafAt, descend,
          hfg, hs, ← hiso]
  | cons t rest ih =>
    rw [hasSharedLeafAt_cons]
    simp only [sub__remove_recurse]
    cases hf : hashFind node.children t with
    | none => simp [hf]
    | some branch => simp [hf, ih]

/-- C9 counterexample: removing a filter from an engine whose root hash
has no entry for the filter's first level returns 0 (`Ok`, not
`NoSubscription`) and leaves the caller's reason value untouched instead
of setting it to `NoSubscriptionExisted`. -/
theorem c9_counterexample :
    (sub__remove ⟨1, some ['c'], Protocol.mqtt5⟩ "a".toList 5 [] []).1 = MOSQ_ERR_SUCCESS ∧
    (sub__remove ⟨1, some ['c'], Protocol.mqtt5⟩ "a".toList 5 [] []).2.2.1 = 5 ∧
    (5 : Nat) ≠ MQTT_RC_NO_SUBSCRIPTION_EXISTED := by
  decide

/-- C9 amended: once the filter tokenises, `sub__remove` always returns
0 (`Ok`) - even when nothing was removed.  When the root node for the
first token is absent, everything (the reason out-parameter included) is
left untouched; when it exists, the reason out-parameter is set to 0
(`Success`) if a leaf of this client sat at the end of the filter's path
- in the terminal node's normal list for a plain filter, inside the
named group for a `$share` filter - and to
`MQTT_RC_NO_SUBSCRIPTION_EXISTED` otherwise. -/
theorem c9_remove_result (c : Client) (F : List Char) (reason0 : Nat)
    (S : RootHash) (cidx : List (Option Subleaf)) (t0 : Lvl) (trest : List Lvl)
    (shn : Option Lvl)
    (htok : tokeniseSub F = some (t0 :: trest, shn)) :
    ((sub__remove c F reason0 S cidx).1 = MOSQ_ERR_SUCCESS) ∧
    (hashFind S t0 = none →
      sub__remove c F reason0 S cidx = (MOSQ_ERR_SUCCESS, S, reason0, cidx)) ∧
    (∀ rt, hashFind S t0 = some rt →
      (sub__remove c F reason0 S cidx).2.2.1 =
        (if (match shn with
             | none => hasNormalLeafAt c rt (t0 :: trest)
             | some g => hasSharedLeafAt c g rt (t0 :: trest)) then 0
          else MQTT_RC_NO_SUBSCRIPTION_EXISTED)) := by
  refine ⟨?_, ?_, ?_⟩
  · simp only [sub__remove, htok]
    cases hf : hashFind S t0 with
    | none => rfl
    | some rt => simp [hf, sub__remove_recurse_rc_cons]
  · intro hf
    simp [sub__remove, htok, hf]
  · intro rt hf
    simp only [sub__remove, htok, hf]
    cases shn with
    | none =>
      exact sub__remove_recurse_reason c (t0 :: trest) rt
        MQTT_RC_NO_SUBSCRIPTION_EXISTED cidx
    | some g =>
      exact sub__remove_recurse_reason_shared c g (t0 :: trest) rt
        MQTT_RC_NO_SUBSCRIPTION_EXISTED cidx

/-- C9 witness: the amended theorem at a concrete trie holding the
client's leaf for filter `a`, and at another holding a second client's
leaf in group `g` for filter `$share/g/a`; both removals report reason
`Success`. -/
theorem c9_witness :
    ((sub__remove ⟨1, some ['c'], Protocol.mqtt5⟩ "a".toList 99
        [([], Subhier.mk [] [([], Subhier.mk []
          [(['a'], Subhier.mk ['a'] [] [⟨1, some ['c'], 0, 0, "a".toList⟩] [])] [] [])] [] [])]
        []).1 = MOSQ_ERR_SUCCESS) ∧
    ((sub__remove ⟨1, some ['c'], Protocol.mqtt5⟩ "a".toList 99
        [([], Subhier.mk [] [([], Subhier.mk []
          [(['a'], Subhier.mk ['a'] [] [⟨1, some ['c'], 0, 0, "a".toList⟩] [])] [] [])] [] [])]
        []).2.2.1 =
      (if hasNormalLeafAt ⟨1, some ['c'], Protocol.mqtt5⟩
          (Subhier.mk [] [([], Subhier.mk []
            [(['a'], Subhier.mk ['a'] [] [⟨1, some ['c'], 0, 0, "a".toList⟩] [])] [] [])] [] [])
          ([] :: [['a']]) then 0 else MQTT_RC_NO_SUBSCRIPTION_EXISTED)) ∧
    ((sub__remove ⟨2, some ['d'], Protocol.mqtt5⟩ "$share/g/a".toList 99
        [([], Subhier.mk [] [([], Subhier.mk []
          [(['a'], Subhier.mk ['a'] [] []
            [(['g'], [⟨2, some ['d'], 0, 0, "$share/g/a".toList⟩])])] [] [])] [] [])]
        []).1 = MOSQ_ERR_SUCCESS) ∧
    ((sub__remove ⟨2, some ['d'], Protocol.mqtt5⟩ "$share/g/a".toList 99
        [([], Subhier.mk [] [([], Subhier.mk []
          [(['a'], Subhier.mk ['a'] [] []
            [(['g'], [⟨2, some ['d'], 0, 0, "$share/g/a".toList⟩])])] [] [])] [] [])]
        []).2.2.1 =
      (if hasSharedLeafAt ⟨2, some ['d'], Protocol.mqtt5⟩ ['g']
          (Subhier.mk [] [([], Subhier.mk []
            [(['a'], Subhier.mk ['a'] [] []
              [(['g'], [⟨2, some ['d'], 0, 0, "$share/g/a".toList⟩])])] [] [])] [] [])
          ([] :: [['a']]) then 0 else MQTT_RC_NO_SUBSCRIPTION_EXISTED)) :=
  ⟨(c9_remove_result ⟨1, some ['c'], Protocol.mqtt5⟩ "a".toList 99
      [([], Subhier.mk [] [([], Subhier.mk []
        [(['a'], Subhier.mk ['a'] [] [⟨1, some ['c'], 0, 0, "a".toList⟩] [])] [] [])] [] [])]
      [] [] [['a']] none (by decide)).1,
   (c9_remove_result ⟨1, some ['c'], Protocol.mqtt5⟩ "a".toList 99
      [([], Subhier.mk [] [([], Subhier.mk []
        [(['a'], Subhier.mk ['a'] [] [⟨1, some ['c'], 0, 0, "a".toList⟩] [])] [] [])] [] [])]
      [] [] [['a']] none (by decide)).2.2
     (Subhier.mk [] [([], Subhier.mk []
        [(['a'], Subhier.mk ['a'] [] [⟨1, some ['c'], 0, 0, "a".toList⟩] [])] [] [])] [] [])
     rfl,
   (c9_remove_result ⟨2, some ['d'], Protocol.mqtt5⟩ "$share/g/a".toList 99
      [([], Subhier.mk [] [([], Subhier.mk []
        [(['a'], Subhier.mk ['a'] [] []
          [(['g'], [⟨2, some ['d'], 0, 0, "$share/g/a".toList⟩])])] [] [])] [] [])]
      [] [] [['a']] (some ['g']) (by decide)).1,
   (c9_remove_result ⟨2, some ['d'], Protocol.mqtt5⟩ "$share/g/a".toList 99
      [([], Subhier.mk [] [([], Subhier.mk []
        [(['a'], Subhier.mk ['a'] [] []
          [(['g'], [⟨2, some ['d'], 0, 0, "$share/g/a".toList⟩])])] [] [])] [] [])]
      [] [] [['a']] (some ['g']) (by decide)).2.2
     (Subhier.mk [] [([], Subhier.mk []
        [(['a'], Subhier.mk ['a'] [] []
          [(['g'], [⟨2, some ['d'], 0, 0, "$share/g/a".toList⟩])])] [] [])] [] [])
     rfl⟩

end Subs
